import Mathlib

/-!
Shallow embedding of the `stable-index-vector` crate: a generational slot
map (`Vector<T>` in `src/vector.rs`) with per-slot `Metadata` records
(`src/metadata.rs`) and copyable `Handle` capabilities (`src/handle.rs`).

Rust `usize` indices are modelled as `Nat` (no overflow is reachable at
list lengths).  A Rust operation that can panic (out-of-bounds indexing)
is modelled in the `Option` monad: `none` is a panic, `some r` is normal
completion with result `r`.  Operations whose Rust result type is already
`Option<_>` therefore return `Option (Option _)` here: the outer layer is
the panic layer, the inner layer is the Rust `Option`.
-/

set_option maxHeartbeats 1000000

namespace StableIndexVector

/-- Rust `Metadata` from `src/metadata.rs`: `reverse_id` is the logical ID of the
object currently at this dense position, `validity_id` the generation
counter. -/
structure Metadata where
  reverse_id : Nat
  validity_id : Nat
  deriving DecidableEq, Repr

/-- Rust `Metadata::new` from `src/metadata.rs`. -/
def Metadata.new (reverse_id : Nat) (validity_id : Nat) : Metadata :=
  ⟨reverse_id, validity_id⟩

/-- Rust `Handle<T>` from `src/handle.rs` (the `PhantomData<T>` type tag carries
no data and is omitted). -/
structure Handle where
  id : Nat
  validity_id : Nat
  deriving DecidableEq, Repr

/-- Rust `Handle::new` from `src/handle.rs`. -/
def Handle.new (id : Nat) (validity_id : Nat) : Handle :=
  ⟨id, validity_id⟩

/-- Rust `Handle::get_id` from `src/handle.rs`. -/
def Handle.get_id (h : Handle) : Nat := h.id

/-- Rust `Vector<T>` from `src/vector.rs`: dense object storage `data`, parallel
per-position `metadata`, and the ID-to-position indirection table
`indices`. -/
structure Vector (T : Type) where
  data : List T
  metadata : List Metadata
  indices : List Nat
  deriving DecidableEq, Repr

/-- Rust `Vec::swap(i, j)`: panics (`none`) when either index is out of
bounds, otherwise exchanges the elements at `i` and `j`. -/
def listSwap (l : List α) (i j : Nat) : Option (List α) :=
  match l[i]?, l[j]? with
  | some a, some b => some ((l.set i b).set j a)
  | _, _ => none

/-- Rust slice write `l[i] = a`: panics (`none`) when `i` is out of
bounds. -/
def listWrite (l : List α) (i : Nat) (a : α) : Option (List α) :=
  if i < l.length then some (l.set i a) else none

namespace Vector

variable {T : Type}

/-- Rust `Vector::default()` from `src/vector.rs`: three empty vectors. -/
def default : Vector T := ⟨[], [], []⟩

/-- Rust `Vector::len` from `src/vector.rs`. -/
def len (v : Vector T) : Nat := v.data.length

/-- Rust `Vector::is_empty` from `src/vector.rs`. -/
def is_empty (v : Vector T) : Bool := v.data.isEmpty

/-- Rust `Vector::get_data_index` from `src/vector.rs`: `self.indices[id]`,
panicking when `id` is out of range. -/
def get_data_index (v : Vector T) (id : Nat) : Option Nat := v.indices[id]?

/-- Rust `Vector::get_free_id` from `src/vector.rs`.  When
`metadata.len() > data.len()` (i.e. `metadata[data.len()]` exists) the
boundary slot is reused: its `validity_id` is bumped and its `reverse_id`
returned.  Otherwise a fresh slot with ID `data.len()` is appended to both
`metadata` and `indices`.  Neither branch can panic. -/
def get_free_id (v : Vector T) : Nat × Vector T :=
  match v.metadata[v.data.length]? with
  | some md =>
    (md.reverse_id,
      { v with metadata :=
          v.metadata.set v.data.length (Metadata.new md.reverse_id (md.validity_id + 1)) })
  | none =>
    (v.data.length,
      { v with
          metadata := v.metadata ++ [Metadata.new v.data.length 0],
          indices := v.indices ++ [v.data.length] })

/-- Rust `Vector::get_free_slot` from `src/vector.rs`: obtains a free ID and
points `indices[id]` at the dense boundary `data.len()` (the write panics
if `id` were out of range of `indices`). -/
def get_free_slot (v : Vector T) : Option (Nat × Vector T) :=
  let p := get_free_id v
  (listWrite p.2.indices p.1 p.2.data.length).map
    (fun ix => (p.1, { p.2 with indices := ix }))

/-- Rust `Vector::push` from `src/vector.rs`: gets a free slot then appends the
object to dense storage, returning the slot's ID. -/
def push (v : Vector T) (object : T) : Option (Nat × Vector T) :=
  (get_free_slot v).map
    (fun p => (p.1, { p.2 with data := p.2.data ++ [object] }))

/-- Rust `Vector::erase_by_id` from `src/vector.rs`.  Reads
`data_id = indices[id]`, `last_data_id = data.len() - 1` (panic on an
empty map), `last_id = metadata[last_data_id].reverse_id`; bumps
`metadata[data_id].validity_id`; swaps `data` and `metadata` at
`data_id`/`last_data_id` and `indices` at `id`/`last_id`; pops the last
data element.  Any out-of-bounds access panics (`none`). -/
def erase_by_id (v : Vector T) (id : Nat) : Option (Vector T) := do
  let data_id ← v.indices[id]?
  if v.data.length = 0 then none
  else do
    let last_data_id := v.data.length - 1
    let lastMd ← v.metadata[last_data_id]?
    let last_id := lastMd.reverse_id
    let md ← v.metadata[data_id]?
    let metadata1 := v.metadata.set data_id (Metadata.new md.reverse_id (md.validity_id + 1))
    let data1 ← listSwap v.data data_id last_data_id
    let metadata2 ← listSwap metadata1 data_id last_data_id
    let indices1 ← listSwap v.indices id last_id
    some { data := data1.dropLast, metadata := metadata2, indices := indices1 }

/-- Rust `Vector::erase_by_data` from `src/vector.rs`:
`erase_by_id(metadata[index].reverse_id)`. -/
def erase_by_data (v : Vector T) (index : Nat) : Option (Vector T) := do
  let md ← v.metadata[index]?
  erase_by_id v md.reverse_id

/-- Rust `Vector::erase_by_handle` from `src/vector.rs`:
`erase_by_id(handle.get_id())`, with no validity check. -/
def erase_by_handle (v : Vector T) (h : Handle) : Option (Vector T) :=
  erase_by_id v h.get_id

/-- Rust `Vector::create_handle` from `src/vector.rs`: `None` when `id` is out
of range or its data index is past the live boundary; otherwise a handle
carrying the slot's current `validity_id`. -/
def create_handle (v : Vector T) (id : Nat) : Option (Option Handle) :=
  if id ≥ v.indices.length then some none
  else do
    let data_index ← v.indices[id]?
    if data_index ≥ v.data.length then some none
    else do
      let md ← v.metadata[data_index]?
      some (some (Handle.new id md.validity_id))

/-- Rust `Vector::create_handle_from_data` from `src/vector.rs`: `None` when
`index` is past the live boundary, otherwise a handle built from
`metadata[index]`. -/
def create_handle_from_data (v : Vector T) (index : Nat) : Option (Option Handle) :=
  if index ≥ v.data.length then some none
  else do
    let md ← v.metadata[index]?
    some (some (Handle.new md.reverse_id md.validity_id))

/-- Rust `Vector::is_valid` from `src/vector.rs`:
`validity_id == metadata[indices[id]].validity_id`, with no bounds check,
so either indexing may panic. -/
def is_valid (v : Vector T) (id : Nat) (validity_id : Nat) : Option Bool := do
  let p ← v.indices[id]?
  let md ← v.metadata[p]?
  some (validity_id == md.validity_id)

/-- Rust `Vector::reserve` from `src/vector.rs`: only pre-allocates capacity,
which a `List` model does not represent; logical contents are unchanged. -/
def reserve (v : Vector T) (_size : Nat) : Vector T := v

/-- Rust `Vector::get_validity_id` from `src/vector.rs`:
`metadata[indices[id]].validity_id`, unchecked. -/
def get_validity_id (v : Vector T) (id : Nat) : Option Nat := do
  let p ← v.indices[id]?
  let md ← v.metadata[p]?
  some md.validity_id

/-- Rust `Vector::get_next_id` from `src/vector.rs`: the boundary slot's
`reverse_id` when `metadata.len() > data.len()`, else `data.len()`. -/
def get_next_id (v : Vector T) : Nat :=
  match v.metadata[v.data.length]? with
  | some md => md.reverse_id
  | none => v.data.length

/-- Rust `Vector::clear` from `src/vector.rs`: clears dense storage and bumps
every metadata entry's `validity_id`. -/
def clear (v : Vector T) : Vector T :=
  { data := [],
    metadata := v.metadata.map (fun md => Metadata.new md.reverse_id (md.validity_id + 1)),
    indices := v.indices }

/-- Rust `Vector::is_valid_id` from `src/vector.rs`. -/
def is_valid_id (v : Vector T) (id : Nat) : Bool := id < v.indices.length

/-- Rust `Vector::get` from `src/vector.rs`: `None` when the id is out of range
of `indices` or the carried generation mismatches; otherwise the object at
`data[indices[id]]`.  The unchecked `metadata` and `data` indexings may
panic. -/
def get (v : Vector T) (h : Handle) : Option (Option T) :=
  if h.id ≥ v.indices.length then some none
  else do
    let data_index ← v.indices[h.id]?
    let md ← v.metadata[data_index]?
    if h.validity_id ≠ md.validity_id then some none
    else do
      let x ← v.data[data_index]?
      some (some x)

/-- Rust `Vector::get_mut` from `src/vector.rs`: identical lookup to `get`; the
value returned is the one the Rust `&mut T` would point at. -/
def get_mut (v : Vector T) (h : Handle) : Option (Option T) :=
  if h.id ≥ v.indices.length then some none
  else do
    let data_index ← v.indices[h.id]?
    let md ← v.metadata[data_index]?
    if h.validity_id ≠ md.validity_id then some none
    else do
      let x ← v.data[data_index]?
      some (some x)

end Vector

/-- The mutating operations of the public API, used to define
reachability. -/
inductive Op (T : Type) where
  | push (x : T)
  | erase_by_id (id : Nat)
  | erase_by_data (index : Nat)
  | erase_by_handle (h : Handle)
  | clear
  | reserve (n : Nat)
  deriving DecidableEq

/-- Apply one operation; `none` is a panic. -/
def applyOp (v : Vector T) : Op T → Option (Vector T)
  | .push x => (Vector.push v x).map Prod.snd
  | .erase_by_id id => Vector.erase_by_id v id
  | .erase_by_data i => Vector.erase_by_data v i
  | .erase_by_handle h => Vector.erase_by_handle v h
  | .clear => some (Vector.clear v)
  | .reserve n => some (Vector.reserve v n)

/-- Run a sequence of operations, aborting on the first panic. -/
def runOps (v : Vector T) : List (Op T) → Option (Vector T)
  | [] => some v
  | op :: ops => (applyOp v op).bind (fun v1 => runOps v1 ops)

/-- A state is reachable when some panic-free operation sequence produces
it from `Vector::default()`. -/
def Reachable (v : Vector T) : Prop :=
  ∃ ops : List (Op T), runOps Vector.default ops = some v

/-- Observation: the indirection entry for `id` (0 when out of range). -/
def idxF (v : Vector T) (id : Nat) : Nat := v.indices.getD id 0

/-- Observation: the `reverse_id` at dense position `p`. -/
def revF (v : Vector T) (p : Nat) : Nat := (v.metadata.getD p ⟨0, 0⟩).reverse_id

/-- Observation: the `validity_id` at dense position `p`. -/
def valF (v : Vector T) (p : Nat) : Nat := (v.metadata.getD p ⟨0, 0⟩).validity_id

/-- Rust `id` currently denotes a live object: it is in range of the
indirection table and resolves below the dense-storage boundary (the
criterion `create_handle` checks). -/
def live (v : Vector T) (id : Nat) : Prop :=
  id < v.indices.length ∧ idxF v id < v.data.length

instance (v : Vector T) (id : Nat) : Decidable (live v id) := by
  unfold live; infer_instance

/-- The structural invariant of the slot map: `indices` and `metadata`
have equal length, dense storage is no longer than either, and `indices`
and the `reverse_id` fields of `metadata` are mutually inverse
permutations of the position range. -/
def Inv (v : Vector T) : Prop :=
  v.indices.length = v.metadata.length ∧
  v.data.length ≤ v.metadata.length ∧
  (∀ id, id < v.indices.length →
    idxF v id < v.metadata.length ∧ revF v (idxF v id) = id) ∧
  (∀ p, p < v.metadata.length →
    revF v p < v.indices.length ∧ idxF v (revF v p) = p)

instance (v : Vector T) : Decidable (Inv v) := by
  unfold Inv; infer_instance

/-- A handle whose carried generation is consistent with the current state:
its id is in range, its generation does not exceed the slot's current one,
and when its slot is freed the current generation is strictly larger.
Every handle ever returned by `create_handle` or `create_handle_from_data`
satisfies this, and every operation preserves it. -/
def GoodHandle (v : Vector T) (hdl : Handle) : Prop :=
  hdl.id < v.indices.length ∧
  hdl.validity_id ≤ valF v (idxF v hdl.id) ∧
  (idxF v hdl.id < v.data.length ∨ hdl.validity_id < valF v (idxF v hdl.id))

/-- The handle was issued by the state `v`: some call of `create_handle` or
`create_handle_from_data` on `v` returns it. -/
def IssuedBy (v : Vector T) (hdl : Handle) : Prop :=
  (∃ id, Vector.create_handle v id = some (some hdl)) ∨
  (∃ i, Vector.create_handle_from_data v i = some (some hdl))

/-! Helper lemmas about the panicking list primitives. -/

lemma listWrite_eq_some {l : List α} {i : Nat} {a : α} {l' : List α}
    (h : listWrite l i a = some l') :
    i < l.length ∧ l'.length = l.length ∧
      ∀ k, l'[k]? = if k = i then some a else l[k]? := by
  unfold listWrite at h
  split at h
  · next hi =>
    cases h
    refine ⟨hi, List.length_set .., fun k => ?_⟩
    rw [List.getElem?_set]
    by_cases hk : k = i
    · subst hk
      rw [if_pos rfl, if_pos rfl, if_pos hi]
    · rw [if_neg (fun hik => hk hik.symm), if_neg hk]
  · exact absurd h (by simp)

lemma listWrite_isSome {l : List α} {i : Nat} (a : α) (hi : i < l.length) :
    listWrite l i a = some (l.set i a) := by
  unfold listWrite
  simp [hi]

lemma listSwap_eq_some {l : List α} {i j : Nat} {l' : List α}
    (h : listSwap l i j = some l') :
    i < l.length ∧ j < l.length ∧ l'.length = l.length ∧
      ∀ k, l'[k]? = if k = j then l[i]? else if k = i then l[j]? else l[k]? := by
  unfold listSwap at h
  cases hi : l[i]? with
  | none => rw [hi] at h; exact absurd h (by simp)
  | some a =>
    cases hj : l[j]? with
    | none => rw [hi, hj] at h; simp at h
    | some b =>
      rw [hi, hj] at h
      cases h
      have hil : i < l.length := (List.getElem?_eq_some_iff.mp hi).1
      have hjl : j < l.length := (List.getElem?_eq_some_iff.mp hj).1
      refine ⟨hil, hjl, by simp, fun k => ?_⟩
      by_cases hkj : j = k
      · subst hkj
        simp [List.getElem?_set, hjl, hi]
      · by_cases hki : i = k
        · subst hki
          simp [List.getElem?_set, hkj, Ne.symm hkj, hil, hj]
        · simp [List.getElem?_set, hkj, hki, Ne.symm hkj, Ne.symm hki]

lemma listSwap_isSome {l : List α} {i j : Nat} (hi : i < l.length) (hj : j < l.length) :
    ∃ l', listSwap l i j = some l' := by
  unfold listSwap
  rcases List.getElem?_eq_some_iff.mpr ⟨hi, rfl⟩ with h1
  rcases List.getElem?_eq_some_iff.mpr ⟨hj, rfl⟩ with h2
  rw [h1, h2]
  exact ⟨_, rfl⟩

/-! Bridges between the `getElem?`-level definitions and the total
observation functions `idxF`, `revF`, `valF`. -/

lemma idxF_eq_getElem? (v : Vector T) (j : Nat) : idxF v j = (v.indices[j]?).getD 0 := by
  simp [idxF, List.getD_eq_getElem?_getD]

lemma revF_eq_getElem? (v : Vector T) (p : Nat) :
    revF v p = ((v.metadata[p]?).getD ⟨0, 0⟩).reverse_id := by
  simp [revF, List.getD_eq_getElem?_getD]

lemma valF_eq_getElem? (v : Vector T) (p : Nat) :
    valF v p = ((v.metadata[p]?).getD ⟨0, 0⟩).validity_id := by
  simp [valF, List.getD_eq_getElem?_getD]

lemma indices_getElem?_eq (v : Vector T) {j : Nat} (hj : j < v.indices.length) :
    v.indices[j]? = some (idxF v j) := by
  rw [List.getElem?_eq_getElem hj, idxF_eq_getElem?, List.getElem?_eq_getElem hj]
  rfl

lemma metadata_getElem?_eq (v : Vector T) {p : Nat} (hp : p < v.metadata.length) :
    v.metadata[p]? = some ⟨revF v p, valF v p⟩ := by
  rw [List.getElem?_eq_getElem hp, revF_eq_getElem?, valF_eq_getElem?,
    List.getElem?_eq_getElem hp]
  rfl

/-! Unpacking the invariant. -/

lemma Inv.len_ix (hInv : Inv v) : v.indices.length = v.metadata.length := hInv.1

lemma Inv.len_data (hInv : Inv v) : v.data.length ≤ v.metadata.length := hInv.2.1

lemma Inv.idx_lt (hInv : Inv v) {id : Nat} (hid : id < v.indices.length) :
    idxF v id < v.metadata.length := ((hInv.2.2.1) id hid).1

lemma Inv.rev_idx (hInv : Inv v) {id : Nat} (hid : id < v.indices.length) :
    revF v (idxF v id) = id := ((hInv.2.2.1) id hid).2

lemma Inv.rev_lt (hInv : Inv v) {p : Nat} (hp : p < v.metadata.length) :
    revF v p < v.indices.length := ((hInv.2.2.2) p hp).1

lemma Inv.idx_rev (hInv : Inv v) {p : Nat} (hp : p < v.metadata.length) :
    idxF v (revF v p) = p := ((hInv.2.2.2) p hp).2

lemma Inv.idx_inj (hInv : Inv v) {a b : Nat} (ha : a < v.indices.length)
    (hb : b < v.indices.length) (h : idxF v a = idxF v b) : a = b := by
  have := hInv.rev_idx ha
  rw [h, hInv.rev_idx hb] at this
  exact this.symm

/-! Characterizations of the read-only operations. -/

lemma get_mut_eq_get (v : Vector T) (hdl : Handle) :
    Vector.get_mut v hdl = Vector.get v hdl := rfl

lemma get_out_of_range {v : Vector T} {hdl : Handle} (h : v.indices.length ≤ hdl.id) :
    Vector.get v hdl = some none := by
  unfold Vector.get
  rw [if_pos h]

lemma get_mismatch {v : Vector T} {hdl : Handle} (hInv : Inv v)
    (hid : hdl.id < v.indices.length)
    (hne : hdl.validity_id ≠ valF v (idxF v hdl.id)) :
    Vector.get v hdl = some none := by
  unfold Vector.get
  have hc : ¬ hdl.id ≥ v.indices.length := by omega
  rw [if_neg hc]
  simp [indices_getElem?_eq v hid, metadata_getElem?_eq v (hInv.idx_lt hid), hne]

lemma get_match_live {v : Vector T} {hdl : Handle} (hInv : Inv v)
    (hid : hdl.id < v.indices.length)
    (heq : hdl.validity_id = valF v (idxF v hdl.id))
    (hlive : idxF v hdl.id < v.data.length) :
    ∃ x, v.data[idxF v hdl.id]? = some x ∧ Vector.get v hdl = some (some x) := by
  obtain ⟨x, hx⟩ : ∃ x, v.data[idxF v hdl.id]? = some x :=
    ⟨_, List.getElem?_eq_getElem hlive⟩
  refine ⟨x, hx, ?_⟩
  unfold Vector.get
  have hc : ¬ hdl.id ≥ v.indices.length := by omega
  rw [if_neg hc]
  simp [indices_getElem?_eq v hid, metadata_getElem?_eq v (hInv.idx_lt hid), heq, hx]

lemma get_match_freed {v : Vector T} {hdl : Handle} (hInv : Inv v)
    (hid : hdl.id < v.indices.length)
    (heq : hdl.validity_id = valF v (idxF v hdl.id))
    (hfreed : v.data.length ≤ idxF v hdl.id) :
    Vector.get v hdl = none := by
  unfold Vector.get
  have hc : ¬ hdl.id ≥ v.indices.length := by omega
  rw [if_neg hc]
  simp [indices_getElem?_eq v hid, metadata_getElem?_eq v (hInv.idx_lt hid), heq,
    List.getElem?_eq_none_iff.mpr hfreed]

lemma get_eq_some_some {v : Vector T} {hdl : Handle} {x : T} (hInv : Inv v)
    (h : Vector.get v hdl = some (some x)) :
    hdl.id < v.indices.length ∧ hdl.validity_id = valF v (idxF v hdl.id) ∧
      idxF v hdl.id < v.data.length ∧ v.data[idxF v hdl.id]? = some x := by
  by_cases hid : hdl.id < v.indices.length
  · by_cases heq : hdl.validity_id = valF v (idxF v hdl.id)
    · by_cases hlive : idxF v hdl.id < v.data.length
      · obtain ⟨y, hy, hget⟩ := get_match_live hInv hid heq hlive
        rw [hget] at h
        simp only [Option.some_inj] at h
        subst h
        exact ⟨hid, heq, hlive, hy⟩
      · rw [get_match_freed hInv hid heq (by omega : v.data.length ≤ idxF v hdl.id)] at h
        cases h
    · rw [get_mismatch hInv hid heq] at h
      simp at h
  · rw [get_out_of_range (by omega : v.indices.length ≤ hdl.id)] at h
    simp at h

lemma get_validity_id_eq {v : Vector T} {id : Nat} (hInv : Inv v)
    (hid : id < v.indices.length) :
    Vector.get_validity_id v id = some (valF v (idxF v id)) := by
  unfold Vector.get_validity_id
  simp [indices_getElem?_eq v hid, metadata_getElem?_eq v (hInv.idx_lt hid)]

lemma is_valid_eq {v : Vector T} {id : Nat} (hInv : Inv v)
    (hid : id < v.indices.length) (vid : Nat) :
    Vector.is_valid v id vid = some (vid == valF v (idxF v id)) := by
  unfold Vector.is_valid
  simp [indices_getElem?_eq v hid, metadata_getElem?_eq v (hInv.idx_lt hid)]

lemma is_valid_out_of_range {v : Vector T} {id : Nat} (h : v.indices.length ≤ id)
    (vid : Nat) : Vector.is_valid v id vid = none := by
  unfold Vector.is_valid
  simp [List.getElem?_eq_none_iff.mpr h]

lemma create_handle_live {v : Vector T} {id : Nat} (hInv : Inv v)
    (hid : id < v.indices.length) (hlive : idxF v id < v.data.length) :
    Vector.create_handle v id = some (some ⟨id, valF v (idxF v id)⟩) := by
  unfold Vector.create_handle
  have hc : ¬ id ≥ v.indices.length := by omega
  rw [if_neg hc]
  simp [indices_getElem?_eq v hid, metadata_getElem?_eq v (hInv.idx_lt hid),
    Nat.not_le.mpr hlive, Handle.new]

lemma create_handle_freed {v : Vector T} {id : Nat}
    (hid : id < v.indices.length) (hfreed : v.data.length ≤ idxF v id) :
    Vector.create_handle v id = some none := by
  unfold Vector.create_handle
  have hc : ¬ id ≥ v.indices.length := by omega
  rw [if_neg hc]
  simp [indices_getElem?_eq v hid, hfreed]

lemma create_handle_out_of_range {v : Vector T} {id : Nat}
    (h : v.indices.length ≤ id) : Vector.create_handle v id = some none := by
  unfold Vector.create_handle
  rw [if_pos h]

lemma create_handle_inv {v : Vector T} {id : Nat} {hdl : Handle} (hInv : Inv v)
    (h : Vector.create_handle v id = some (some hdl)) :
    id < v.indices.length ∧ idxF v id < v.data.length ∧
      hdl = ⟨id, valF v (idxF v id)⟩ := by
  by_cases hid : id < v.indices.length
  · by_cases hlive : idxF v id < v.data.length
    · rw [create_handle_live hInv hid hlive] at h
      simp only [Option.some_inj] at h
      exact ⟨hid, hlive, h.symm⟩
    · rw [create_handle_freed hid (by omega : v.data.length ≤ idxF v id)] at h
      simp at h
  · rw [create_handle_out_of_range (by omega : v.indices.length ≤ id)] at h
    simp at h

lemma create_handle_from_data_inv {v : Vector T} {i : Nat} {hdl : Handle}
    (hInv : Inv v) (h : Vector.create_handle_from_data v i = some (some hdl)) :
    i < v.data.length ∧ hdl = ⟨revF v i, valF v i⟩ := by
  unfold Vector.create_handle_from_data at h
  have hd := hInv.len_data
  by_cases hi : i < v.data.length
  · have hc : ¬ i ≥ v.data.length := by omega
    rw [if_neg hc] at h
    rw [metadata_getElem?_eq v (by omega : i < v.metadata.length)] at h
    simp [Handle.new] at h
    exact ⟨hi, h.symm⟩
  · have hc : i ≥ v.data.length := by omega
    rw [if_pos hc] at h
    simp at h

/-! Characterizations of the mutating operations. -/

lemma reserve_id (v : Vector T) (n : Nat) : Vector.reserve v n = v := rfl

lemma clear_data (v : Vector T) : (Vector.clear v).data = [] := rfl

lemma clear_indices (v : Vector T) : (Vector.clear v).indices = v.indices := rfl

lemma clear_metadata_length (v : Vector T) :
    (Vector.clear v).metadata.length = v.metadata.length := by
  simp [Vector.clear]

lemma clear_revF (v : Vector T) (q : Nat) : revF (Vector.clear v) q = revF v q := by
  rw [revF_eq_getElem?, revF_eq_getElem?]
  simp only [Vector.clear, List.getElem?_map]
  cases v.metadata[q]? <;> simp [Metadata.new]

lemma clear_valF (v : Vector T) {q : Nat} (hq : q < v.metadata.length) :
    valF (Vector.clear v) q = valF v q + 1 := by
  rw [valF_eq_getElem?, valF_eq_getElem?]
  simp only [Vector.clear, List.getElem?_map]
  rw [List.getElem?_eq_getElem hq]
  simp [Metadata.new]

lemma clear_idxF (v : Vector T) (j : Nat) : idxF (Vector.clear v) j = idxF v j := rfl

lemma push_reuse (v : Vector T) (x : T) (hInv : Inv v)
    (hlt : v.data.length < v.metadata.length) :
    Vector.push v x = some (revF v v.data.length,
      { data := v.data ++ [x],
        metadata := v.metadata.set v.data.length
          ⟨revF v v.data.length, valF v v.data.length + 1⟩,
        indices := v.indices.set (revF v v.data.length) v.data.length }) := by
  have hmd := metadata_getElem?_eq v hlt
  have hr : revF v v.data.length < v.indices.length := hInv.rev_lt hlt
  unfold Vector.push Vector.get_free_slot Vector.get_free_id
  rw [hmd]
  simp only [Metadata.new]
  rw [listWrite_isSome v.data.length hr]
  rfl

lemma push_fresh (v : Vector T) (x : T) (hInv : Inv v)
    (hge : v.metadata.length ≤ v.data.length) :
    Vector.push v x = some (v.data.length,
      { data := v.data ++ [x],
        metadata := v.metadata ++ [⟨v.data.length, 0⟩],
        indices := v.indices ++ [v.data.length] }) := by
  have hmd : v.metadata[v.data.length]? = none := List.getElem?_eq_none_iff.mpr hge
  have hlen : v.indices.length = v.data.length := by
    have h1 := hInv.len_ix
    have h2 := hInv.len_data
    omega
  unfold Vector.push Vector.get_free_slot Vector.get_free_id
  rw [hmd]
  simp only [Metadata.new]
  have hwr : v.data.length < (v.indices ++ [v.data.length]).length := by
    simp [hlen]
  rw [listWrite_isSome v.data.length hwr]
  have hset : (v.indices ++ [v.data.length]).set v.data.length v.data.length
      = v.indices ++ [v.data.length] := by
    rw [List.set_append, if_neg (by omega)]
    simp [hlen]
  simp [hset]

lemma erase_spec {v : Vector T} {id : Nat} {w : Vector T} (hInv : Inv v)
    (h : Vector.erase_by_id v id = some w) :
    id < v.indices.length ∧ idxF v id < v.data.length ∧
    w.data.length + 1 = v.data.length ∧
    w.metadata.length = v.metadata.length ∧
    w.indices.length = v.indices.length ∧
    (∀ j, idxF w j =
      if j = revF v (v.data.length - 1) then idxF v id
      else if j = id then idxF v (revF v (v.data.length - 1))
      else idxF v j) ∧
    (∀ q, revF w q =
      if q = v.data.length - 1 then revF v (idxF v id)
      else if q = idxF v id then revF v (v.data.length - 1)
      else revF v q) ∧
    (∀ q, valF w q =
      if q = v.data.length - 1 then valF v (idxF v id) + 1
      else if q = idxF v id then valF v (v.data.length - 1)
      else valF v q) ∧
    (∀ p, w.data[p]? =
      if p < v.data.length - 1 then
        (if p = idxF v id then v.data[v.data.length - 1]? else v.data[p]?)
      else none) := by
  unfold Vector.erase_by_id at h
  cases hix : v.indices[id]? with
  | none =>
    rw [hix] at h
    simp at h
  | some data_id =>
    rw [hix] at h
    simp only [Option.bind_eq_bind, Option.some_bind] at h
    by_cases hn : v.data.length = 0
    · rw [if_pos hn] at h
      simp at h
    · rw [if_neg hn] at h
      have hid : id < v.indices.length := (List.getElem?_eq_some_iff.mp hix).1
      have hdataid : data_id = idxF v id := by
        have h2 := indices_getElem?_eq v hid
        rw [hix] at h2
        exact Option.some_inj.mp h2
      have hlast : v.data.length - 1 < v.metadata.length := by
        have := hInv.len_data
        omega
      have hmdl := metadata_getElem?_eq v hlast
      rw [hmdl] at h
      simp only [Option.bind_eq_bind, Option.some_bind] at h
      have hdimd : data_id < v.metadata.length := by
        rw [hdataid]
        exact hInv.idx_lt hid
      have hmdd := metadata_getElem?_eq v hdimd
      rw [hmdd] at h
      simp only [Option.bind_eq_bind, Option.some_bind] at h
      cases hds : listSwap v.data data_id (v.data.length - 1) with
      | none =>
        rw [hds] at h
        simp at h
      | some data1 =>
        rw [hds] at h
        simp only [Option.bind_eq_bind, Option.some_bind] at h
        obtain ⟨hdi_lt, hlast_lt, hdlen, hdget⟩ := listSwap_eq_some hds
        have hm1len : (v.metadata.set data_id
            (Metadata.new data_id 0)).length = v.metadata.length := by
          simp
        cases hms : listSwap (v.metadata.set data_id
            (Metadata.new (revF v data_id) (valF v data_id + 1)))
            data_id (v.data.length - 1) with
        | none =>
          obtain ⟨m2, hm2⟩ := listSwap_isSome
            (l := v.metadata.set data_id
              (Metadata.new (revF v data_id) (valF v data_id + 1)))
            (i := data_id) (j := v.data.length - 1)
            (by simpa using hdimd) (by simpa using hlast)
          rw [hms] at hm2
          cases hm2
        | some metadata2 =>
          rw [hms] at h
          simp only [Option.bind_eq_bind, Option.some_bind] at h
          obtain ⟨hmi_lt, hml_lt, hmlen, hmget⟩ := listSwap_eq_some hms
          cases his : listSwap v.indices id (revF v (v.data.length - 1)) with
          | none =>
            obtain ⟨i2, hi2⟩ := listSwap_isSome
              (l := v.indices) (i := id) (j := revF v (v.data.length - 1))
              hid (hInv.rev_lt hlast)
            rw [his] at hi2
            cases hi2
          | some indices1 =>
            rw [his] at h
            simp only [Option.bind_eq_bind, Option.some_bind, Option.some_inj] at h
            obtain ⟨hii_lt, hil_lt, hilen, higet⟩ := listSwap_eq_some his
            subst h
            subst hdataid
            refine ⟨hid, hdi_lt, ?_, ?_, ?_, ?_, ?_, ?_, ?_⟩
            · simp only [List.length_dropLast]
              omega
            · simpa using hmlen
            · simpa using hilen
            · intro j
              rw [idxF_eq_getElem?, higet j]
              by_cases hj1 : j = revF v (v.data.length - 1)
              · rw [if_pos hj1, if_pos hj1, ← idxF_eq_getElem?]
              · rw [if_neg hj1, if_neg hj1]
                by_cases hj2 : j = id
                · rw [if_pos hj2, if_pos hj2, ← idxF_eq_getElem?]
                · rw [if_neg hj2, if_neg hj2, ← idxF_eq_getElem?]
            · intro q
              rw [revF_eq_getElem?, hmget q]
              by_cases hq1 : q = v.data.length - 1
              · rw [if_pos hq1, if_pos hq1]
                rw [List.getElem?_set, if_pos rfl, if_pos (by simpa using hdimd)]
                simp [Metadata.new]
              · rw [if_neg hq1, if_neg hq1]
                by_cases hq2 : q = idxF v id
                · rw [if_pos hq2, if_pos hq2]
                  have hne : ¬ (idxF v id = v.data.length - 1) := by
                    rw [← hq2]
                    omega
                  rw [List.getElem?_set, if_neg hne, hmdl]
                  simp
                · rw [if_neg hq2, if_neg hq2]
                  rw [List.getElem?_set, if_neg (fun hc => hq2 hc.symm),
                    ← revF_eq_getElem?]
            · intro q
              rw [valF_eq_getElem?, hmget q]
              by_cases hq1 : q = v.data.length - 1
              · rw [if_pos hq1, if_pos hq1]
                rw [List.getElem?_set, if_pos rfl, if_pos (by simpa using hdimd)]
                simp [Metadata.new]
              · rw [if_neg hq1, if_neg hq1]
                by_cases hq2 : q = idxF v id
                · rw [if_pos hq2, if_pos hq2]
                  have hne : ¬ (idxF v id = v.data.length - 1) := by
                    rw [← hq2]
                    omega
                  rw [List.getElem?_set, if_neg hne, hmdl]
                  simp
                · rw [if_neg hq2, if_neg hq2]
                  rw [List.getElem?_set, if_neg (fun hc => hq2 hc.symm),
                    ← valF_eq_getElem?]
            · intro p
              show data1.dropLast[p]? = _
              rw [List.getElem?_dropLast, hdlen]
              by_cases hp : p < v.data.length - 1
              · rw [if_pos hp, if_pos hp, hdget p, if_neg (by omega)]
              · rw [if_neg hp, if_neg hp]

lemma erase_out_of_range {v : Vector T} {id : Nat} (h : v.indices.length ≤ id) :
    Vector.erase_by_id v id = none := by
  unfold Vector.erase_by_id
  rw [List.getElem?_eq_none_iff.mpr h]
  rfl

lemma erase_empty {v : Vector T} (hlen : v.data.length = 0) (id : Nat) :
    Vector.erase_by_id v id = none := by
  unfold Vector.erase_by_id
  cases hix : v.indices[id]? with
  | none => rfl
  | some data_id =>
    simp only [Option.bind_eq_bind, Option.some_bind]
    rw [if_pos hlen]

lemma erase_freed {v : Vector T} {id : Nat} (hInv : Inv v)
    (hfreed : v.data.length ≤ idxF v id) :
    Vector.erase_by_id v id = none := by
  cases he : Vector.erase_by_id v id with
  | none => rfl
  | some w =>
    obtain ⟨-, hlive, -⟩ := erase_spec hInv he
    omega

lemma erase_live_isSome {v : Vector T} {id : Nat} (hInv : Inv v)
    (hid : id < v.indices.length) (hlive : idxF v id < v.data.length) :
    ∃ w, Vector.erase_by_id v id = some w := by
  unfold Vector.erase_by_id
  rw [indices_getElem?_eq v hid]
  simp only [Option.bind_eq_bind, Option.some_bind]
  have hn : ¬ v.data.length = 0 := by omega
  rw [if_neg hn]
  have hlast : v.data.length - 1 < v.metadata.length := by
    have := hInv.len_data
    omega
  rw [metadata_getElem?_eq v hlast]
  simp only [Option.bind_eq_bind, Option.some_bind]
  have hdimd : idxF v id < v.metadata.length := hInv.idx_lt hid
  rw [metadata_getElem?_eq v hdimd]
  simp only [Option.bind_eq_bind, Option.some_bind]
  obtain ⟨d1, hd1⟩ := listSwap_isSome (l := v.data) (i := idxF v id)
    (j := v.data.length - 1) hlive (by omega)
  rw [hd1]
  simp only [Option.bind_eq_bind, Option.some_bind]
  obtain ⟨m2, hm2⟩ := listSwap_isSome
    (l := v.metadata.set (idxF v id)
      (Metadata.new (revF v (idxF v id)) (valF v (idxF v id) + 1)))
    (i := idxF v id) (j := v.data.length - 1)
    (by simpa using hdimd) (by simpa using hlast)
  rw [hm2]
  simp only [Option.bind_eq_bind, Option.some_bind]
  obtain ⟨i1, hi1⟩ := listSwap_isSome (l := v.indices) (i := id)
    (j := revF v (v.data.length - 1)) hid (hInv.rev_lt hlast)
  rw [hi1]
  exact ⟨_, rfl⟩

lemma getD_set (l : List α) (i j : Nat) (a d : α) :
    (l.set i a).getD j d = if i = j ∧ i < l.length then a else l.getD j d := by
  rw [List.getD_eq_getElem?_getD, List.getD_eq_getElem?_getD, List.getElem?_set]
  by_cases hij : i = j
  · subst hij
    by_cases hi : i < l.length
    · simp [hi]
    · simp [hi, List.getElem?_eq_none_iff.mpr (by omega : l.length ≤ i)]
  · simp [hij]

lemma getD_concat (l : List α) (a d : α) (j : Nat) :
    (l ++ [a]).getD j d =
      if j < l.length then l.getD j d else if j = l.length then a else d := by
  rw [List.getD_eq_getElem?_getD, List.getD_eq_getElem?_getD]
  by_cases hj : j < l.length
  · rw [List.getElem?_append_left hj, if_pos hj]
  · rw [List.getElem?_append_right (by omega), if_neg hj]
    by_cases hj2 : j = l.length
    · subst hj2
      simp
    · rw [if_neg hj2]
      have : j - l.length ≥ 1 := by omega
      have hnone : ([a] : List α)[j - l.length]? = none := by
        apply List.getElem?_eq_none_iff.mpr
        simp
        omega
      rw [hnone]
      rfl

/-- Combined effect of a successful `push`, independent of whether a freed
slot was reused or a fresh one created. -/
lemma push_spec {v : Vector T} {x : T} {id : Nat} {w : Vector T} (hInv : Inv v)
    (h : Vector.push v x = some (id, w)) :
    id = Vector.get_next_id v ∧
    ¬ live v id ∧
    w.data = v.data ++ [x] ∧
    w.indices.length = max v.indices.length (v.data.length + 1) ∧
    w.metadata.length = max v.metadata.length (v.data.length + 1) ∧
    (∀ j, idxF w j = if j = id then v.data.length else idxF v j) ∧
    (∀ q, revF w q = if q = v.data.length then id else revF v q) ∧
    (∀ q, q ≠ v.data.length → valF w q = valF v q) ∧
    valF w v.data.length =
      (if v.data.length < v.metadata.length then valF v v.data.length + 1 else 0) := by
  by_cases hlt : v.data.length < v.metadata.length
  · rw [push_reuse v x hInv hlt] at h
    simp only [Option.some_inj, Prod.mk.injEq] at h
    obtain ⟨hidr, hw⟩ := h
    subst hw
    have hr : revF v v.data.length < v.indices.length := hInv.rev_lt hlt
    have hidxr : idxF v (revF v v.data.length) = v.data.length := hInv.idx_rev hlt
    have hix := hInv.len_ix
    have hdl := hInv.len_data
    refine ⟨?_, ?_, rfl, ?_, ?_, ?_, ?_, ?_, ?_⟩
    · rw [← hidr]
      unfold Vector.get_next_id
      rw [metadata_getElem?_eq v hlt]
    · intro hl
      have h2 := hl.2
      rw [← hidr, hidxr] at h2
      omega
    · show (v.indices.set (revF v v.data.length) v.data.length).length = _
      simp
      omega
    · show (v.metadata.set v.data.length _).length = _
      simp
      omega
    · intro j
      show (v.indices.set (revF v v.data.length) v.data.length).getD j 0 = _
      rw [getD_set]
      by_cases hj : j = id
      · rw [if_pos hj, if_pos ⟨by rw [hidr, hj], hr⟩]
      · rw [if_neg hj, if_neg ?_]
        · rfl
        · rintro ⟨h1, -⟩
          exact hj (by rw [← h1, hidr])
    · intro q
      show ((v.metadata.set v.data.length _).getD q ⟨0, 0⟩).reverse_id = _
      rw [getD_set]
      by_cases hq : q = v.data.length
      · rw [if_pos hq, if_pos ⟨hq.symm, hlt⟩]
        rw [← hidr]
      · rw [if_neg hq, if_neg ?_]
        · rfl
        · rintro ⟨h1, -⟩
          exact hq h1.symm
    · intro q hq
      show ((v.metadata.set v.data.length _).getD q ⟨0, 0⟩).validity_id = _
      rw [getD_set, if_neg ?_]
      · rfl
      · rintro ⟨h1, -⟩
        exact hq h1.symm
    · rw [if_pos hlt]
      show ((v.metadata.set v.data.length _).getD v.data.length ⟨0, 0⟩).validity_id = _
      rw [getD_set, if_pos ⟨rfl, hlt⟩]
  · rw [push_fresh v x hInv (by omega)] at h
    simp only [Option.some_inj, Prod.mk.injEq] at h
    obtain ⟨hidr, hw⟩ := h
    subst hw
    have hlen : v.indices.length = v.data.length := by
      have h1 := hInv.len_ix
      have h2 := hInv.len_data
      omega
    have hmlen : v.metadata.length = v.data.length := by
      have h2 := hInv.len_data
      omega
    refine ⟨?_, ?_, rfl, ?_, ?_, ?_, ?_, ?_, ?_⟩
    · rw [← hidr]
      unfold Vector.get_next_id
      rw [List.getElem?_eq_none_iff.mpr (by omega)]
    · intro hl
      have := hl.1
      omega
    · show (v.indices ++ [v.data.length]).length = _
      simp
      omega
    · show (v.metadata ++ [_]).length = _
      simp
      omega
    · intro j
      show (v.indices ++ [v.data.length]).getD j 0 = _
      rw [getD_concat]
      by_cases hj : j = id
      · rw [if_pos hj, if_neg (by omega), if_pos (by omega)]
      · rw [if_neg hj]
        by_cases hjl : j < v.indices.length
        · rw [if_pos hjl]
          rfl
        · rw [if_neg hjl, if_neg (by omega)]
          show 0 = idxF v j
          rw [idxF_eq_getElem?, List.getElem?_eq_none_iff.mpr (by omega)]
          rfl
    · intro q
      show ((v.metadata ++ [_]).getD q ⟨0, 0⟩).reverse_id = _
      rw [getD_concat]
      by_cases hq : q = v.data.length
      · rw [if_pos hq, if_neg (by omega), if_pos (by omega)]
        exact hidr
      · rw [if_neg hq]
        by_cases hql : q < v.metadata.length
        · rw [if_pos hql]
          rfl
        · rw [if_neg hql, if_neg (by omega)]
          show (0 : Nat) = revF v q
          rw [revF_eq_getElem?, List.getElem?_eq_none_iff.mpr (by omega)]
          rfl
    · intro q hq
      show ((v.metadata ++ [_]).getD q ⟨0, 0⟩).validity_id = _
      rw [getD_concat]
      by_cases hql : q < v.metadata.length
      · rw [if_pos hql]
        rfl
      · rw [if_neg hql, if_neg (by omega)]
        show (0 : Nat) = valF v q
        rw [valF_eq_getElem?, List.getElem?_eq_none_iff.mpr (by omega)]
        rfl
    · rw [if_neg hlt]
      show ((v.metadata ++ [_]).getD v.data.length ⟨0, 0⟩).validity_id = _
      rw [getD_concat, if_neg (by omega), if_pos (by omega)]

/-- Lemma: `push` additionally reports which branch produced the id. -/
lemma push_branch {v : Vector T} {x : T} {id : Nat} {w : Vector T} (hInv : Inv v)
    (h : Vector.push v x = some (id, w)) :
    if v.data.length < v.metadata.length then
      id = revF v v.data.length ∧ id < v.indices.length
    else id = v.data.length := by
  by_cases hlt : v.data.length < v.metadata.length
  · rw [push_reuse v x hInv hlt] at h
    simp only [Option.some_inj, Prod.mk.injEq] at h
    rw [if_pos hlt]
    exact ⟨h.1.symm, h.1 ▸ hInv.rev_lt hlt⟩
  · rw [push_fresh v x hInv (by omega)] at h
    simp only [Option.some_inj, Prod.mk.injEq] at h
    rw [if_neg hlt]
    exact h.1.symm

lemma Inv_push {v : Vector T} {x : T} {id : Nat} {w : Vector T} (hInv : Inv v)
    (h : Vector.push v x = some (id, w)) : Inv w := by
  obtain ⟨-, -, hdata, hixl, hmdl, hidx, hrev, hval, -⟩ := push_spec hInv h
  have hbr := push_branch hInv h
  have hix := hInv.len_ix
  have hdl := hInv.len_data
  have hwdata : w.data.length = v.data.length + 1 := by
    rw [hdata]
    simp
  have hidlt : id < w.indices.length := by
    rw [hixl]
    by_cases hlt : v.data.length < v.metadata.length
    · rw [if_pos hlt] at hbr
      omega
    · rw [if_neg hlt] at hbr
      omega
  refine ⟨?_, ?_, ?_, ?_⟩
  · rw [hixl, hmdl, hix]
  · rw [hwdata, hmdl]
    omega
  · intro j hj
    rw [hidx j]
    by_cases hjid : j = id
    · rw [if_pos hjid]
      refine ⟨by rw [hmdl]; omega, ?_⟩
      rw [hrev, if_pos rfl, hjid]
    · rw [if_neg hjid]
      have hjv : j < v.indices.length := by
        rw [hixl] at hj
        by_cases hc : j < v.indices.length
        · exact hc
        · exfalso
          have hfr : ¬ v.data.length < v.metadata.length := by omega
          rw [if_neg hfr] at hbr
          exact hjid (by omega)
      obtain ⟨hp1, hp2⟩ := hInv.2.2.1 j hjv
      refine ⟨by rw [hmdl]; omega, ?_⟩
      have hcn : idxF v j ≠ v.data.length := by
        intro hc
        by_cases hlt : v.data.length < v.metadata.length
        · rw [if_pos hlt] at hbr
          apply hjid
          rw [← hp2, hc, ← hbr.1]
        · omega
      rw [hrev, if_neg hcn]
      exact hp2
  · intro q hq
    rw [hrev q]
    by_cases hqn : q = v.data.length
    · rw [if_pos hqn]
      refine ⟨hidlt, ?_⟩
      rw [hidx, if_pos rfl, hqn]
    · rw [if_neg hqn]
      have hqv : q < v.metadata.length := by
        rw [hmdl] at hq
        omega
      obtain ⟨hq1, hq2⟩ := hInv.2.2.2 q hqv
      have hcn : revF v q ≠ id := by
        intro hc
        by_cases hlt : v.data.length < v.metadata.length
        · rw [if_pos hlt] at hbr
          apply hqn
          rw [← hq2, hc, hbr.1]
          exact hInv.idx_rev hlt
        · rw [if_neg hlt] at hbr
          omega
      refine ⟨by rw [hixl]; omega, ?_⟩
      rw [hidx, if_neg hcn]
      exact hq2

lemma Inv_erase {v : Vector T} {id : Nat} {w : Vector T} (hInv : Inv v)
    (h : Vector.erase_by_id v id = some w) : Inv w := by
  obtain ⟨hid, hlive, hwd, hwm, hwi, hidx, hrev, hval, hdget⟩ := erase_spec hInv h
  have hix := hInv.len_ix
  have hdl := hInv.len_data
  have hdi : idxF v id < v.metadata.length := hInv.idx_lt hid
  have hlastm : v.data.length - 1 < v.metadata.length := by omega
  have hlid : revF v (v.data.length - 1) < v.indices.length := hInv.rev_lt hlastm
  have hlidx : idxF v (revF v (v.data.length - 1)) = v.data.length - 1 :=
    hInv.idx_rev hlastm
  have hrevdi : revF v (idxF v id) = id := hInv.rev_idx hid
  refine ⟨by omega, by omega, ?_, ?_⟩
  · intro j hj
    rw [hwi] at hj
    rw [hidx j]
    by_cases hj1 : j = revF v (v.data.length - 1)
    · rw [if_pos hj1]
      refine ⟨by omega, ?_⟩
      rw [hrev]
      by_cases hc : idxF v id = v.data.length - 1
      · rw [if_pos hc, hrevdi, hj1, ← hc, hrevdi]
      · rw [if_neg hc, if_pos rfl, hj1]
    · rw [if_neg hj1]
      by_cases hj2 : j = id
      · rw [if_pos hj2]
        rw [hlidx]
        refine ⟨by omega, ?_⟩
        rw [hrev, if_pos rfl, hrevdi, hj2]
      · rw [if_neg hj2]
        obtain ⟨hp1, hp2⟩ := hInv.2.2.1 j hj
        have hc1 : idxF v j ≠ v.data.length - 1 := by
          intro hc
          apply hj1
          rw [← hp2, hc]
        have hc2 : idxF v j ≠ idxF v id := by
          intro hc
          exact hj2 (hInv.idx_inj hj hid hc)
        refine ⟨by omega, ?_⟩
        rw [hrev, if_neg hc1, if_neg hc2]
        exact hp2
  · intro q hq
    rw [hwm] at hq
    rw [hrev q]
    by_cases hq1 : q = v.data.length - 1
    · rw [if_pos hq1]
      rw [hrevdi]
      refine ⟨by omega, ?_⟩
      rw [hidx]
      by_cases hc : id = revF v (v.data.length - 1)
      · rw [if_pos hc, hq1, hc, hlidx]
      · rw [if_neg hc, if_pos rfl, hlidx, hq1]
    · rw [if_neg hq1]
      by_cases hq2 : q = idxF v id
      · rw [if_pos hq2]
        refine ⟨by omega, ?_⟩
        rw [hidx, if_pos rfl, hq2]
      · rw [if_neg hq2]
        obtain ⟨hr1, hr2⟩ := hInv.2.2.2 q hq
        have hc1 : revF v q ≠ revF v (v.data.length - 1) := by
          intro hc
          apply hq1
          rw [← hr2, hc, hlidx]
        have hc2 : revF v q ≠ id := by
          intro hc
          apply hq2
          rw [← hr2, hc]
        refine ⟨by omega, ?_⟩
        rw [hidx, if_neg hc1, if_neg hc2]
        exact hr2

lemma Inv_clear {v : Vector T} (hInv : Inv v) : Inv (Vector.clear v) := by
  refine ⟨?_, ?_, ?_, ?_⟩
  · rw [clear_metadata_length]
    exact hInv.len_ix
  · rw [clear_metadata_length]
    simp [Vector.clear]
  · intro j hj
    rw [clear_idxF, clear_revF, clear_metadata_length]
    exact hInv.2.2.1 j hj
  · intro q hq
    rw [clear_metadata_length] at hq
    rw [clear_revF, clear_idxF]
    exact hInv.2.2.2 q hq

lemma Inv_default : Inv (Vector.default : Vector T) := by
  refine ⟨rfl, by simp [Vector.default], ?_, ?_⟩
  · intro j hj
    simp [Vector.default] at hj
  · intro q hq
    simp [Vector.default] at hq

lemma erase_by_data_some {v w : Vector T} {i : Nat}
    (h : Vector.erase_by_data v i = some w) :
    ∃ md, v.metadata[i]? = some md ∧ Vector.erase_by_id v md.reverse_id = some w := by
  unfold Vector.erase_by_data at h
  cases hmd : v.metadata[i]? with
  | none =>
    rw [hmd] at h
    simp at h
  | some md =>
    rw [hmd] at h
    simp only [Option.bind_eq_bind, Option.some_bind] at h
    exact ⟨md, rfl, h⟩

lemma push_map_some {v w : Vector T} {x : T}
    (h : (Vector.push v x).map Prod.snd = some w) :
    ∃ id, Vector.push v x = some (id, w) := by
  obtain ⟨p, hp, hw⟩ := Option.map_eq_some'.mp h
  exact ⟨p.1, by rw [hp, ← hw]⟩

lemma Inv_applyOp {v w : Vector T} {op : Op T} (hInv : Inv v)
    (h : applyOp v op = some w) : Inv w := by
  cases op with
  | push x =>
    obtain ⟨id, hp⟩ := push_map_some h
    exact Inv_push hInv hp
  | erase_by_id id => exact Inv_erase hInv h
  | erase_by_data i =>
    obtain ⟨md, -, he⟩ := erase_by_data_some h
    exact Inv_erase hInv he
  | erase_by_handle hdl => exact Inv_erase hInv h
  | clear =>
    simp only [applyOp, Option.some_inj] at h
    rw [← h]
    exact Inv_clear hInv
  | reserve n =>
    simp only [applyOp, Option.some_inj] at h
    rw [← h]
    exact hInv

lemma runOps_inv {v w : Vector T} {ops : List (Op T)} (hInv : Inv v)
    (h : runOps v ops = some w) : Inv w := by
  induction ops generalizing v with
  | nil =>
    simp only [runOps, Option.some_inj] at h
    rw [← h]
    exact hInv
  | cons op ops ih =>
    simp only [runOps] at h
    cases hstep : applyOp v op with
    | none =>
      rw [hstep] at h
      simp at h
    | some v1 =>
      rw [hstep] at h
      simp only [Option.bind_eq_bind, Option.some_bind] at h
      exact ih (Inv_applyOp hInv hstep) h

lemma Reachable_inv {v : Vector T} (h : Reachable v) : Inv v := by
  obtain ⟨ops, hops⟩ := h
  exact runOps_inv Inv_default hops

/-- Effect of a successful `push` on the generation observed through a
fixed in-range id. -/
lemma step_obs_push {v w : Vector T} {x : T} {pid : Nat} (hInv : Inv v)
    (h : Vector.push v x = some (pid, w)) {id : Nat} (hid : id < v.indices.length) :
    id < w.indices.length ∧
    valF v (idxF v id) ≤ valF w (idxF w id) ∧
    (idxF v id < v.data.length → ¬ idxF w id < w.data.length →
      valF v (idxF v id) < valF w (idxF w id)) := by
  obtain ⟨-, -, hdata, hixl, hmdl, hidx, hrev, hval, hvalb⟩ := push_spec hInv h
  have hbr := push_branch hInv h
  have hix := hInv.len_ix
  have hdl := hInv.len_data
  have hwdata : w.data.length = v.data.length + 1 := by
    rw [hdata]
    simp
  refine ⟨by rw [hixl]; omega, ?_⟩
  by_cases hpid : id = pid
  · by_cases hlt : v.data.length < v.metadata.length
    · rw [if_pos hlt] at hbr
      have hvn : idxF v id = v.data.length := by
        rw [hpid, hbr.1]
        exact hInv.idx_rev hlt
      rw [hidx, if_pos hpid, hvn, hvalb, if_pos hlt]
      exact ⟨by omega, fun hc => absurd (hvn ▸ hc) (by omega)⟩
    · rw [if_neg hlt] at hbr
      omega
  · have hvp : idxF v id ≠ v.data.length := by
      intro hc
      by_cases hlt : v.data.length < v.metadata.length
      · rw [if_pos hlt] at hbr
        apply hpid
        rw [← hInv.rev_idx hid, hc, ← hbr.1]
      · have := hInv.idx_lt hid
        omega
    rw [hidx, if_neg hpid, hval _ hvp]
    exact ⟨le_refl _, fun hlv hc => absurd (by omega : idxF v id < w.data.length) hc⟩

/-- Effect of a successful `erase_by_id` on the generation observed
through a fixed in-range id. -/
lemma step_obs_erase {v w : Vector T} {eid : Nat} (hInv : Inv v)
    (h : Vector.erase_by_id v eid = some w) {id : Nat} (hid : id < v.indices.length) :
    id < w.indices.length ∧
    valF v (idxF v id) ≤ valF w (idxF w id) ∧
    (idxF v id < v.data.length → ¬ idxF w id < w.data.length →
      valF v (idxF v id) < valF w (idxF w id)) := by
  obtain ⟨heid, hlive, hwd, hwm, hwi, hidx, hrev, hval, hdget⟩ := erase_spec hInv h
  have hix := hInv.len_ix
  have hdl := hInv.len_data
  have hlastm : v.data.length - 1 < v.metadata.length := by omega
  have hlidx : idxF v (revF v (v.data.length - 1)) = v.data.length - 1 :=
    hInv.idx_rev hlastm
  refine ⟨by omega, ?_⟩
  rw [hidx]
  by_cases hj1 : id = revF v (v.data.length - 1)
  · rw [if_pos hj1]
    have hobs : idxF v id = v.data.length - 1 := by
      rw [hj1, hlidx]
    by_cases hc : idxF v eid = v.data.length - 1
    · rw [hval, if_pos (by rw [hc] : idxF v eid = v.data.length - 1)]
      rw [hobs, hc]
      exact ⟨by omega, fun hlv hc2 => by omega⟩
    · rw [hval, if_neg ?_, if_pos rfl]
      · rw [hobs]
        refine ⟨le_refl _, ?_⟩
        intro hlv hc2
        exfalso
        apply hc2
        omega
      · intro hc2
        exact hc (by omega)
  · rw [if_neg hj1]
    by_cases hj2 : id = eid
    · rw [if_pos hj2, hlidx]
      rw [hval, if_pos rfl, hj2]
      refine ⟨by omega, ?_⟩
      intro hlv hc2
      omega
    · rw [if_neg hj2]
      have hp2 := hInv.rev_idx hid
      have hc1 : idxF v id ≠ v.data.length - 1 := by
        intro hc
        apply hj1
        rw [← hp2, hc]
      have hc2 : idxF v id ≠ idxF v eid := by
        intro hc
        exact hj2 (hInv.idx_inj hid heid hc)
      rw [hval, if_neg hc1, if_neg hc2]
      refine ⟨le_refl _, ?_⟩
      intro hlv hc3
      exfalso
      apply hc3
      have := hInv.idx_lt hid
      omega

lemma step_obs {v w : Vector T} {op : Op T} (hInv : Inv v)
    (h : applyOp v op = some w) {id : Nat} (hid : id < v.indices.length) :
    id < w.indices.length ∧
    valF v (idxF v id) ≤ valF w (idxF w id) ∧
    (idxF v id < v.data.length → ¬ idxF w id < w.data.length →
      valF v (idxF v id) < valF w (idxF w id)) := by
  cases op with
  | push x =>
    obtain ⟨pid, hp⟩ := push_map_some h
    exact step_obs_push hInv hp hid
  | erase_by_id eid => exact step_obs_erase hInv h hid
  | erase_by_data i =>
    obtain ⟨md, -, he⟩ := erase_by_data_some h
    exact step_obs_erase hInv he hid
  | erase_by_handle hdl => exact step_obs_erase hInv h hid
  | clear =>
    simp only [applyOp, Option.some_inj] at h
    rw [← h]
    rw [clear_idxF, clear_valF v (hInv.idx_lt hid)]
    exact ⟨hid, by omega, fun hlv hc => by omega⟩
  | reserve n =>
    simp only [applyOp, Option.some_inj] at h
    rw [← h]
    exact ⟨hid, le_refl _, fun hlv hc => absurd hlv hc⟩

lemma GoodHandle_step {v w : Vector T} {op : Op T} {hdl : Handle} (hInv : Inv v)
    (h : applyOp v op = some w) (hg : GoodHandle v hdl) : GoodHandle w hdl := by
  obtain ⟨hid, hle, hor⟩ := hg
  obtain ⟨hid2, hmono, hstrict⟩ := step_obs hInv h hid
  refine ⟨hid2, by omega, ?_⟩
  by_cases hlw : idxF w hdl.id < w.data.length
  · exact Or.inl hlw
  · refine Or.inr ?_
    rcases hor with hlv | hsv
    · have := hstrict hlv hlw
      omega
    · omega

lemma GoodHandle_run {v w : Vector T} {ops : List (Op T)} {hdl : Handle}
    (hInv : Inv v) (h : runOps v ops = some w) (hg : GoodHandle v hdl) :
    GoodHandle w hdl := by
  induction ops generalizing v with
  | nil =>
    simp only [runOps, Option.some_inj] at h
    rw [← h]
    exact hg
  | cons op ops ih =>
    simp only [runOps] at h
    cases hstep : applyOp v op with
    | none =>
      rw [hstep] at h
      simp at h
    | some v1 =>
      rw [hstep] at h
      simp only [Option.bind_eq_bind, Option.some_bind] at h
      exact ih (Inv_applyOp hInv hstep) h (GoodHandle_step hInv hstep hg)

lemma run_obs_mono {v w : Vector T} {ops : List (Op T)} (hInv : Inv v)
    {id : Nat} (hid : id < v.indices.length) (h : runOps v ops = some w) :
    id < w.indices.length ∧ valF v (idxF v id) ≤ valF w (idxF w id) := by
  induction ops generalizing v with
  | nil =>
    simp only [runOps, Option.some_inj] at h
    rw [← h]
    exact ⟨hid, le_refl _⟩
  | cons op ops ih =>
    simp only [runOps] at h
    cases hstep : applyOp v op with
    | none =>
      rw [hstep] at h
      simp at h
    | some v1 =>
      rw [hstep] at h
      simp only [Option.bind_eq_bind, Option.some_bind] at h
      obtain ⟨hid1, hmono1, -⟩ := step_obs hInv hstep hid
      obtain ⟨hid2, hmono2⟩ := ih (Inv_applyOp hInv hstep) hid1 h
      exact ⟨hid2, le_trans hmono1 hmono2⟩

lemma GoodHandle_of_create {v : Vector T} {id : Nat} {hdl : Handle} (hInv : Inv v)
    (h : Vector.create_handle v id = some (some hdl)) : GoodHandle v hdl := by
  obtain ⟨hid, hlive, rfl⟩ := create_handle_inv hInv h
  exact ⟨hid, le_refl _, Or.inl hlive⟩

lemma GoodHandle_of_create_from_data {v : Vector T} {i : Nat} {hdl : Handle}
    (hInv : Inv v) (h : Vector.create_handle_from_data v i = some (some hdl)) :
    GoodHandle v hdl := by
  obtain ⟨hi, rfl⟩ := create_handle_from_data_inv hInv h
  have him : i < v.metadata.length := by
    have := hInv.len_data
    omega
  have hrl : revF v i < v.indices.length := hInv.rev_lt him
  have hir : idxF v (revF v i) = i := hInv.idx_rev him
  refine ⟨hrl, ?_, Or.inl ?_⟩
  · show valF v i ≤ valF v (idxF v (revF v i))
    rw [hir]
  · show idxF v (revF v i) < v.data.length
    rw [hir]
    exact hi

lemma GoodHandle_of_issued {v : Vector T} {hdl : Handle} (hInv : Inv v)
    (h : IssuedBy v hdl) : GoodHandle v hdl := by
  rcases h with ⟨id, hc⟩ | ⟨i, hc⟩
  · exact GoodHandle_of_create hInv hc
  · exact GoodHandle_of_create_from_data hInv hc

lemma get_total_of_GoodHandle {v : Vector T} {hdl : Handle} (hInv : Inv v)
    (hg : GoodHandle v hdl) :
    Vector.get v hdl = some none ∨
      ∃ x, v.data[idxF v hdl.id]? = some x ∧
        idxF v hdl.id < v.data.length ∧
        Vector.get v hdl = some (some x) := by
  obtain ⟨hid, hle, hor⟩ := hg
  by_cases heq : hdl.validity_id = valF v (idxF v hdl.id)
  · rcases hor with hlv | hsv
    · obtain ⟨x, hx, hget⟩ := get_match_live hInv hid heq hlv
      exact Or.inr ⟨x, hx, hlv, hget⟩
    · omega
  · exact Or.inl (get_mismatch hInv hid heq)

/-- Erasing one live id leaves `get` on every other validly resolving
handle unchanged. -/
lemma erase_preserves_other_get {v w : Vector T} {eid : Nat} (hInv : Inv v)
    (h : Vector.erase_by_id v eid = some w) {hdl : Handle} {x : T}
    (hne : hdl.id ≠ eid) (hget : Vector.get v hdl = some (some x)) :
    Vector.get w hdl = some (some x) := by
  obtain ⟨hid, heq, hlv, hx⟩ := get_eq_some_some hInv hget
  obtain ⟨heid, helive, hwd, hwm, hwi, hidx, hrev, hval, hdget⟩ := erase_spec hInv h
  have hInvw := Inv_erase hInv h
  have hix := hInv.len_ix
  have hdl2 := hInv.len_data
  have hlastm : v.data.length - 1 < v.metadata.length := by omega
  have hlidx : idxF v (revF v (v.data.length - 1)) = v.data.length - 1 :=
    hInv.idx_rev hlastm
  by_cases hj1 : hdl.id = revF v (v.data.length - 1)
  · have hnewidx : idxF w hdl.id = idxF v eid := by
      rw [hidx, if_pos hj1]
    have holdidx : idxF v hdl.id = v.data.length - 1 := by
      rw [hj1, hlidx]
    have hdine : idxF v eid ≠ v.data.length - 1 := by
      intro hc
      exact hne (hInv.idx_inj hid heid (by rw [holdidx, hc]))
    have hvaleq : valF w (idxF v eid) = valF v (v.data.length - 1) := by
      rw [hval, if_neg hdine, if_pos rfl]
    have hlv2 : idxF v eid < v.data.length - 1 := by omega
    have hdata : w.data[idxF v eid]? = v.data[v.data.length - 1]? := by
      rw [hdget, if_pos hlv2, if_pos rfl]
    have hidw : hdl.id < w.indices.length := by omega
    have heqw : hdl.validity_id = valF w (idxF w hdl.id) := by
      rw [hnewidx, hvaleq, ← holdidx]
      exact heq
    have hlvw : idxF w hdl.id < w.data.length := by
      rw [hnewidx]
      omega
    obtain ⟨y, hy, hget2⟩ := get_match_live hInvw hidw heqw hlvw
    rw [hnewidx, hdata] at hy
    rw [holdidx] at hx
    rw [hx] at hy
    injection hy with hxy
    rw [← hxy] at hget2
    exact hget2
  · have hnewidx : idxF w hdl.id = idxF v hdl.id := by
      rw [hidx, if_neg hj1, if_neg hne]
    have hc1 : idxF v hdl.id ≠ v.data.length - 1 := by
      intro hc
      apply hj1
      rw [← hInv.rev_idx hid, hc]
    have hc2 : idxF v hdl.id ≠ idxF v eid := by
      intro hc
      exact hne (hInv.idx_inj hid heid hc)
    have hvaleq : valF w (idxF v hdl.id) = valF v (idxF v hdl.id) := by
      rw [hval, if_neg hc1, if_neg hc2]
    have hplt : idxF v hdl.id < v.data.length - 1 := by omega
    have hdata : w.data[idxF v hdl.id]? = v.data[idxF v hdl.id]? := by
      rw [hdget, if_pos hplt, if_neg hc2]
    have hidw : hdl.id < w.indices.length := by omega
    have heqw : hdl.validity_id = valF w (idxF w hdl.id) := by
      rw [hnewidx, hvaleq]
      exact heq
    have hlvw : idxF w hdl.id < w.data.length := by
      rw [hnewidx]
      omega
    obtain ⟨y, hy, hget2⟩ := get_match_live hInvw hidw heqw hlvw
    rw [hnewidx, hdata, hx] at hy
    injection hy with hxy
    rw [← hxy] at hget2
    exact hget2

lemma get_next_id_boundary {v : Vector T} (hlt : v.data.length < v.metadata.length) :
    Vector.get_next_id v = revF v v.data.length := by
  unfold Vector.get_next_id
  rw [metadata_getElem?_eq v hlt]

lemma get_next_id_fresh {v : Vector T} (hge : v.metadata.length ≤ v.data.length) :
    Vector.get_next_id v = v.data.length := by
  unfold Vector.get_next_id
  rw [List.getElem?_eq_none_iff.mpr hge]

/-- The id freed by an erase is the one the next insertion will hand out. -/
lemma erase_next_id {v w : Vector T} {eid : Nat} (hInv : Inv v)
    (h : Vector.erase_by_id v eid = some w) : Vector.get_next_id w = eid := by
  obtain ⟨heid, hlive, hwd, hwm, hwi, hidx, hrev, hval, -⟩ := erase_spec hInv h
  have hlt : w.data.length < w.metadata.length := by
    have := hInv.len_data
    omega
  rw [get_next_id_boundary hlt]
  have hwdl : w.data.length = v.data.length - 1 := by omega
  rw [hwdl, hrev, if_pos rfl, hInv.rev_idx heid]

/-- A handle that is already stale never resolves again under any
further panic-free operation sequence, provided its carried generation
does not exceed the slot's current one. -/
lemma stale_forever {v w : Vector T} {hdl : Handle} {ops : List (Op T)}
    (hInv : Inv v) (hid : hdl.id < v.indices.length)
    (hle : hdl.validity_id ≤ valF v (idxF v hdl.id))
    (hstale : Vector.get v hdl = some none)
    (h : runOps v ops = some w) : Vector.get w hdl = some none := by
  have hlt : hdl.validity_id < valF v (idxF v hdl.id) := by
    rcases Nat.lt_or_ge hdl.validity_id (valF v (idxF v hdl.id)) with h1 | h1
    · exact h1
    · exfalso
      have heq : hdl.validity_id = valF v (idxF v hdl.id) := by omega
      by_cases hlv : idxF v hdl.id < v.data.length
      · obtain ⟨x, -, hget⟩ := get_match_live hInv hid heq hlv
        rw [hget] at hstale
        simp at hstale
      · rw [get_match_freed hInv hid heq (by omega)] at hstale
        cases hstale
  obtain ⟨hidw, hmono⟩ := run_obs_mono hInv hid h
  exact get_mismatch (runOps_inv hInv h) hidw (by omega)

lemma get_validity_id_inv {v : Vector T} {id a : Nat}
    (h : Vector.get_validity_id v id = some a) :
    id < v.indices.length ∧ a = valF v (idxF v id) := by
  unfold Vector.get_validity_id at h
  cases hix : v.indices[id]? with
  | none =>
    rw [hix] at h
    simp at h
  | some p =>
    rw [hix] at h
    simp only [Option.bind_eq_bind, Option.some_bind] at h
    have hid : id < v.indices.length := (List.getElem?_eq_some_iff.mp hix).1
    have hp : p = idxF v id := by
      have h2 := indices_getElem?_eq v hid
      rw [hix] at h2
      exact Option.some_inj.mp h2
    cases hmd : v.metadata[p]? with
    | none =>
      rw [hmd] at h
      simp at h
    | some md =>
      rw [hmd] at h
      simp only [Option.bind_eq_bind, Option.some_bind, Option.some_inj] at h
      have hpm : p < v.metadata.length := (List.getElem?_eq_some_iff.mp hmd).1
      have := metadata_getElem?_eq v hpm
      rw [hmd] at this
      refine ⟨hid, ?_⟩
      rw [← h, ← hp, Option.some_inj.mp this]

lemma push_isSome {v : Vector T} (hInv : Inv v) (x : T) :
    ∃ r, Vector.push v x = some r := by
  by_cases hlt : v.data.length < v.metadata.length
  · exact ⟨_, push_reuse v x hInv hlt⟩
  · exact ⟨_, push_fresh v x hInv (by omega)⟩

/-- Lemma `get_mismatch` specialized to an explicit `(id, vid)` pair. -/
lemma get_pair_mismatch {v : Vector T} {id vid : Nat} (hInv : Inv v)
    (hid : id < v.indices.length) (hne : vid ≠ valF v (idxF v id)) :
    Vector.get v ⟨id, vid⟩ = some none :=
  get_mismatch hInv hid hne

/-- Lemma `get_match_live` specialized to an explicit `(id, vid)` pair. -/
lemma get_pair_live {v : Vector T} {id vid : Nat} (hInv : Inv v)
    (hid : id < v.indices.length) (heq : vid = valF v (idxF v id))
    (hlv : idxF v id < v.data.length) :
    ∃ x, v.data[idxF v id]? = some x ∧ Vector.get v ⟨id, vid⟩ = some (some x) := by
  have h : ∃ x, v.data[idxF v (Handle.mk id vid).id]? = some x ∧
      Vector.get v (Handle.mk id vid) = some (some x) :=
    get_match_live hInv hid heq hlv
  exact h

/-- Lemma `get_match_freed` specialized to an explicit `(id, vid)` pair. -/
lemma get_pair_freed {v : Vector T} {id vid : Nat} (hInv : Inv v)
    (hid : id < v.indices.length) (heq : vid = valF v (idxF v id))
    (hfr : v.data.length ≤ idxF v id) :
    Vector.get v ⟨id, vid⟩ = none :=
  get_match_freed hInv hid heq hfr

/-! The claim theorems. -/

/-- C9: in every state reachable from the default slot map by `push`,
`erase_by_id`, `erase_by_data`, `erase_by_handle`, `clear` and `reserve`,
the `indices` and `metadata` tables have equal length, both at least the
dense-storage length, and `indices` and the `reverse_id` fields of
`metadata` are mutually inverse permutations of the position range
(including freed slots); consequently `indices[id]` is below the
dense-storage length exactly when `id` is live, i.e. exactly when
`create_handle id` succeeds. -/
theorem C9_invariants {T : Type} (v : Vector T) (hreach : Reachable v) :
    v.indices.length = v.metadata.length ∧
    v.data.length ≤ v.metadata.length ∧
    v.data.length ≤ v.indices.length ∧
    (∀ id, id < v.indices.length →
      idxF v id < v.metadata.length ∧ revF v (idxF v id) = id) ∧
    (∀ p, p < v.metadata.length →
      revF v p < v.indices.length ∧ idxF v (revF v p) = p) ∧
    (∀ id, id < v.indices.length →
      (idxF v id < v.data.length ↔
        ∃ hdl, Vector.create_handle v id = some (some hdl))) := by
  have hInv := Reachable_inv hreach
  have hix := hInv.len_ix
  have hdl := hInv.len_data
  refine ⟨hix, hdl, by omega, hInv.2.2.1, hInv.2.2.2, ?_⟩
  intro id hid
  constructor
  · intro hlv
    exact ⟨_, create_handle_live hInv hid hlv⟩
  · rintro ⟨hdl, hc⟩
    exact (create_handle_inv hInv hc).2.1

theorem C9_invariants_witness :
    (⟨[20], [⟨1, 0⟩, ⟨0, 1⟩], [1, 0]⟩ : Vector Nat).indices.length =
      (⟨[20], [⟨1, 0⟩, ⟨0, 1⟩], [1, 0]⟩ : Vector Nat).metadata.length ∧
    (⟨[20], [⟨1, 0⟩, ⟨0, 1⟩], [1, 0]⟩ : Vector Nat).data.length ≤
      (⟨[20], [⟨1, 0⟩, ⟨0, 1⟩], [1, 0]⟩ : Vector Nat).metadata.length ∧
    (⟨[20], [⟨1, 0⟩, ⟨0, 1⟩], [1, 0]⟩ : Vector Nat).data.length ≤
      (⟨[20], [⟨1, 0⟩, ⟨0, 1⟩], [1, 0]⟩ : Vector Nat).indices.length ∧
    (∀ id, id < (⟨[20], [⟨1, 0⟩, ⟨0, 1⟩], [1, 0]⟩ : Vector Nat).indices.length →
      idxF (⟨[20], [⟨1, 0⟩, ⟨0, 1⟩], [1, 0]⟩ : Vector Nat) id <
          (⟨[20], [⟨1, 0⟩, ⟨0, 1⟩], [1, 0]⟩ : Vector Nat).metadata.length ∧
        revF (⟨[20], [⟨1, 0⟩, ⟨0, 1⟩], [1, 0]⟩ : Vector Nat)
          (idxF (⟨[20], [⟨1, 0⟩, ⟨0, 1⟩], [1, 0]⟩ : Vector Nat) id) = id) ∧
    (∀ p, p < (⟨[20], [⟨1, 0⟩, ⟨0, 1⟩], [1, 0]⟩ : Vector Nat).metadata.length →
      revF (⟨[20], [⟨1, 0⟩, ⟨0, 1⟩], [1, 0]⟩ : Vector Nat) p <
          (⟨[20], [⟨1, 0⟩, ⟨0, 1⟩], [1, 0]⟩ : Vector Nat).indices.length ∧
        idxF (⟨[20], [⟨1, 0⟩, ⟨0, 1⟩], [1, 0]⟩ : Vector Nat)
          (revF (⟨[20], [⟨1, 0⟩, ⟨0, 1⟩], [1, 0]⟩ : Vector Nat) p) = p) ∧
    (∀ id, id < (⟨[20], [⟨1, 0⟩, ⟨0, 1⟩], [1, 0]⟩ : Vector Nat).indices.length →
      (idxF (⟨[20], [⟨1, 0⟩, ⟨0, 1⟩], [1, 0]⟩ : Vector Nat) id <
          (⟨[20], [⟨1, 0⟩, ⟨0, 1⟩], [1, 0]⟩ : Vector Nat).data.length ↔
        ∃ hdl, Vector.create_handle (⟨[20], [⟨1, 0⟩, ⟨0, 1⟩], [1, 0]⟩ : Vector Nat) id =
          some (some hdl))) :=
  C9_invariants (⟨[20], [⟨1, 0⟩, ⟨0, 1⟩], [1, 0]⟩ : Vector Nat)
    ⟨[Op.push 10, Op.push 20, Op.erase_by_id 0], rfl⟩

/-- C8: `erase_by_id` completes normally and preserves the structural
invariant when `id` is live; it panics (`none`) when `id` is out of range
of `indices`, when `id` denotes a freed slot, and on an empty slot map.
Its only failure mode is the panic: the return type carries no
recoverable error. -/
theorem C8_erase_contract {T : Type} (v : Vector T) (hreach : Reachable v) (id : Nat) :
    (live v id → ∃ w, Vector.erase_by_id v id = some w ∧ Inv w) ∧
    (id ≥ v.indices.length → Vector.erase_by_id v id = none) ∧
    (id < v.indices.length → ¬ idxF v id < v.data.length →
      Vector.erase_by_id v id = none) ∧
    (v.data.length = 0 → Vector.erase_by_id v id = none) := by
  have hInv := Reachable_inv hreach
  refine ⟨?_, ?_, ?_, ?_⟩
  · rintro ⟨hid, hlv⟩
    obtain ⟨w, hw⟩ := erase_live_isSome hInv hid hlv
    exact ⟨w, hw, Inv_erase hInv hw⟩
  · intro h
    exact erase_out_of_range h
  · intro hid hfr
    exact erase_freed hInv (by omega)
  · intro h
    exact erase_empty h id

theorem C8_erase_contract_witness :
    (live (⟨[10], [⟨0, 0⟩], [0]⟩ : Vector Nat) 0 →
      ∃ w, Vector.erase_by_id (⟨[10], [⟨0, 0⟩], [0]⟩ : Vector Nat) 0 = some w ∧ Inv w) ∧
    live (⟨[10], [⟨0, 0⟩], [0]⟩ : Vector Nat) 0 ∧
    Vector.erase_by_id (Vector.default : Vector Nat) 0 = none :=
  ⟨(C8_erase_contract (⟨[10], [⟨0, 0⟩], [0]⟩ : Vector Nat) ⟨[Op.push 10], rfl⟩ 0).1,
   by decide,
   (C8_erase_contract (Vector.default : Vector Nat) ⟨[], rfl⟩ 0).2.2.2 rfl⟩

/-- C4: on every reachable state, `push` succeeds; the returned id is
`get_next_id`, which is the `reverse_id` recorded at the free-list
boundary slot when a freed slot exists and the current live count
otherwise; the object is placed at the new dense boundary position and the
indirection entry of the returned id points at it.  Moreover the id freed
by an erase is exactly the id the next push returns (LIFO reuse of the
most recently freed slot). -/
theorem C4_push_contract {T : Type} (v : Vector T) (hreach : Reachable v) (x : T) :
    (∃ r, Vector.push v x = some r) ∧
    (∀ id w, Vector.push v x = some (id, w) →
      id = Vector.get_next_id v ∧
      (v.data.length < v.metadata.length → id = revF v v.data.length) ∧
      (¬ v.data.length < v.metadata.length → id = v.data.length) ∧
      w.data.length = v.data.length + 1 ∧
      w.data[v.data.length]? = some x ∧
      w.indices[id]? = some v.data.length) ∧
    (∀ eid v2, Vector.erase_by_id v eid = some v2 →
      Vector.get_next_id v2 = eid) := by
  have hInv := Reachable_inv hreach
  refine ⟨push_isSome hInv x, ?_, ?_⟩
  · intro id w h
    obtain ⟨hnext, -, hdata, hixl, -, hidx, -, -, -⟩ := push_spec hInv h
    have hbr := push_branch hInv h
    have hix := hInv.len_ix
    have hdl := hInv.len_data
    have hidlt : id < w.indices.length := by
      rw [hixl]
      by_cases hlt : v.data.length < v.metadata.length
      · rw [if_pos hlt] at hbr
        omega
      · rw [if_neg hlt] at hbr
        omega
    refine ⟨hnext, ?_, ?_, ?_, ?_, ?_⟩
    · intro hlt
      rw [if_pos hlt] at hbr
      exact hbr.1
    · intro hlt
      rw [if_neg hlt] at hbr
      exact hbr
    · rw [hdata]
      simp
    · rw [hdata]
      exact List.getElem?_concat_length v.data x
    · rw [indices_getElem?_eq w hidlt, hidx, if_pos rfl]
  · intro eid v2 h
    exact erase_next_id hInv h

theorem C4_push_contract_witness :
    (∃ r, Vector.push (⟨[], [⟨0, 1⟩], [0]⟩ : Vector Nat) 20 = some r) ∧
    (∀ id w, Vector.push (⟨[], [⟨0, 1⟩], [0]⟩ : Vector Nat) 20 = some (id, w) →
      id = Vector.get_next_id (⟨[], [⟨0, 1⟩], [0]⟩ : Vector Nat) ∧
      ((⟨[], [⟨0, 1⟩], [0]⟩ : Vector Nat).data.length <
          (⟨[], [⟨0, 1⟩], [0]⟩ : Vector Nat).metadata.length →
        id = revF (⟨[], [⟨0, 1⟩], [0]⟩ : Vector Nat)
          (⟨[], [⟨0, 1⟩], [0]⟩ : Vector Nat).data.length) ∧
      (¬ (⟨[], [⟨0, 1⟩], [0]⟩ : Vector Nat).data.length <
          (⟨[], [⟨0, 1⟩], [0]⟩ : Vector Nat).metadata.length →
        id = (⟨[], [⟨0, 1⟩], [0]⟩ : Vector Nat).data.length) ∧
      w.data.length = (⟨[], [⟨0, 1⟩], [0]⟩ : Vector Nat).data.length + 1 ∧
      w.data[(⟨[], [⟨0, 1⟩], [0]⟩ : Vector Nat).data.length]? = some 20 ∧
      w.indices[id]? = some (⟨[], [⟨0, 1⟩], [0]⟩ : Vector Nat).data.length) ∧
    (∀ eid v2, Vector.erase_by_id (⟨[], [⟨0, 1⟩], [0]⟩ : Vector Nat) eid = some v2 →
      Vector.get_next_id v2 = eid) :=
  C4_push_contract (⟨[], [⟨0, 1⟩], [0]⟩ : Vector Nat)
    ⟨[Op.push 10, Op.erase_by_id 0], rfl⟩ 20

/-- C5: on every reachable state, a successful `push` returns an id that
differs from every currently live id, `create_handle` on the returned id
immediately succeeds, and `get` on the resulting handle returns the
inserted object. -/
theorem C5_insert_ids {T : Type} (v : Vector T) (hreach : Reachable v)
    (x : T) (id : Nat) (w : Vector T) (h : Vector.push v x = some (id, w)) :
    (∀ oid, live v oid → id ≠ oid) ∧
    ∃ hdl, Vector.create_handle w id = some (some hdl) ∧
      Vector.get w hdl = some (some x) := by
  have hInv := Reachable_inv hreach
  obtain ⟨-, hnl, hdata, hixl, -, hidx, -, -, -⟩ := push_spec hInv h
  have hbr := push_branch hInv h
  have hix := hInv.len_ix
  have hdl2 := hInv.len_data
  have hInvw := Inv_push hInv h
  have hidlt : id < w.indices.length := by
    rw [hixl]
    by_cases hlt : v.data.length < v.metadata.length
    · rw [if_pos hlt] at hbr
      omega
    · rw [if_neg hlt] at hbr
      omega
  have hwdata : w.data.length = v.data.length + 1 := by
    rw [hdata]
    simp
  have hidxw : idxF w id = v.data.length := by
    rw [hidx, if_pos rfl]
  have hlvw : idxF w id < w.data.length := by omega
  refine ⟨?_, ?_⟩
  · intro oid hoid hc
    exact hnl (hc ▸ hoid)
  · refine ⟨⟨id, valF w (idxF w id)⟩, create_handle_live hInvw hidlt hlvw, ?_⟩
    have hres : ∃ y, w.data[idxF w (Handle.mk id (valF w (idxF w id))).id]? = some y ∧
        Vector.get w (Handle.mk id (valF w (idxF w id))) = some (some y) :=
      get_match_live hInvw hidlt rfl hlvw
    obtain ⟨y, hy0, hget⟩ := hres
    have hy : w.data[idxF w id]? = some y := hy0
    rw [hidxw, hdata, List.getElem?_concat_length] at hy
    injection hy with hxy
    rw [← hxy] at hget
    exact hget

theorem C5_insert_ids_witness :
    (∀ oid, live (⟨[], [⟨0, 1⟩], [0]⟩ : Vector Nat) oid → 0 ≠ oid) ∧
    ∃ hdl, Vector.create_handle (⟨[20], [⟨0, 2⟩], [0]⟩ : Vector Nat) 0 =
        some (some hdl) ∧
      Vector.get (⟨[20], [⟨0, 2⟩], [0]⟩ : Vector Nat) hdl = some (some 20) :=
  C5_insert_ids (⟨[], [⟨0, 1⟩], [0]⟩ : Vector Nat)
    ⟨[Op.push 10, Op.erase_by_id 0], rfl⟩ 20 0
    (⟨[20], [⟨0, 2⟩], [0]⟩ : Vector Nat) rfl

/-- C1 as stated is false: on the reachable state obtained by pushing one
object and erasing it, the forged handle `(0, 1)` has its id in range and
carries the generation the id currently resolves to, so the claim promises
a reference to a live object, yet `get` and `get_mut` panic (model value
`none`, an out-of-bounds dense access) instead of returning one. -/
theorem C1_counterexample :
    Reachable (⟨[], [⟨0, 1⟩], [0]⟩ : Vector Nat) ∧
    (⟨0, 1⟩ : Handle).id < (⟨[], [⟨0, 1⟩], [0]⟩ : Vector Nat).indices.length ∧
    (⟨0, 1⟩ : Handle).validity_id =
      valF (⟨[], [⟨0, 1⟩], [0]⟩ : Vector Nat)
        (idxF (⟨[], [⟨0, 1⟩], [0]⟩ : Vector Nat) (⟨0, 1⟩ : Handle).id) ∧
    Vector.get (⟨[], [⟨0, 1⟩], [0]⟩ : Vector Nat) ⟨0, 1⟩ = none ∧
    Vector.get_mut (⟨[], [⟨0, 1⟩], [0]⟩ : Vector Nat) ⟨0, 1⟩ = none :=
  ⟨⟨[Op.push 0, Op.erase_by_id 0], rfl⟩, by decide, by decide, by decide, by decide⟩

/-- C1 (amended): on every reachable state, `get` and `get_mut` return
nothing when the handle's id is out of range of `indices` or its carried
generation differs from the one its id resolves to; when the generation
matches and the id is live they return the object stored for that id; when
the generation matches but the id's slot is freed — a handle only a forger
can hold — they panic instead of returning. -/
theorem C1_amended {T : Type} (v : Vector T) (hreach : Reachable v) (hdl : Handle) :
    (v.indices.length ≤ hdl.id ∨ hdl.validity_id ≠ valF v (idxF v hdl.id) →
      Vector.get v hdl = some none ∧ Vector.get_mut v hdl = some none) ∧
    (hdl.id < v.indices.length → hdl.validity_id = valF v (idxF v hdl.id) →
      idxF v hdl.id < v.data.length →
      ∃ x, v.data[idxF v hdl.id]? = some x ∧
        Vector.get v hdl = some (some x) ∧ Vector.get_mut v hdl = some (some x)) ∧
    (hdl.id < v.indices.length → hdl.validity_id = valF v (idxF v hdl.id) →
      v.data.length ≤ idxF v hdl.id →
      Vector.get v hdl = none ∧ Vector.get_mut v hdl = none) := by
  have hInv := Reachable_inv hreach
  refine ⟨?_, ?_, ?_⟩
  · intro hc
    rcases hc with hout | hne
    · rw [get_mut_eq_get, get_out_of_range hout]
      exact ⟨rfl, rfl⟩
    · by_cases hid : hdl.id < v.indices.length
      · rw [get_mut_eq_get, get_mismatch hInv hid hne]
        exact ⟨rfl, rfl⟩
      · rw [get_mut_eq_get, get_out_of_range (by omega)]
        exact ⟨rfl, rfl⟩
  · intro hid heq hlv
    obtain ⟨x, hx, hget⟩ := get_match_live hInv hid heq hlv
    refine ⟨x, hx, hget, ?_⟩
    rw [get_mut_eq_get]
    exact hget
  · intro hid heq hfr
    rw [get_mut_eq_get, get_match_freed hInv hid heq hfr]
    exact ⟨rfl, rfl⟩

theorem C1_amended_witness :
    ((⟨[20], [⟨0, 2⟩], [0]⟩ : Vector Nat).indices.length ≤ (⟨0, 1⟩ : Handle).id ∨
      (⟨0, 1⟩ : Handle).validity_id ≠
        valF (⟨[20], [⟨0, 2⟩], [0]⟩ : Vector Nat)
          (idxF (⟨[20], [⟨0, 2⟩], [0]⟩ : Vector Nat) (⟨0, 1⟩ : Handle).id)) ∧
    Vector.get (⟨[20], [⟨0, 2⟩], [0]⟩ : Vector Nat) ⟨0, 1⟩ = some none ∧
    Vector.get_mut (⟨[20], [⟨0, 2⟩], [0]⟩ : Vector Nat) ⟨0, 1⟩ = some none ∧
    ∃ x, (⟨[20], [⟨0, 2⟩], [0]⟩ : Vector Nat).data[
        idxF (⟨[20], [⟨0, 2⟩], [0]⟩ : Vector Nat) (⟨0, 2⟩ : Handle).id]? = some x ∧
      Vector.get (⟨[20], [⟨0, 2⟩], [0]⟩ : Vector Nat) ⟨0, 2⟩ = some (some x) ∧
      Vector.get_mut (⟨[20], [⟨0, 2⟩], [0]⟩ : Vector Nat) ⟨0, 2⟩ = some (some x) := by
  have hd : (⟨0, 1⟩ : Handle).validity_id ≠
      valF (⟨[20], [⟨0, 2⟩], [0]⟩ : Vector Nat)
        (idxF (⟨[20], [⟨0, 2⟩], [0]⟩ : Vector Nat) (⟨0, 1⟩ : Handle).id) := by decide
  have h1 := (C1_amended (⟨[20], [⟨0, 2⟩], [0]⟩ : Vector Nat)
    ⟨[Op.push 10, Op.erase_by_id 0, Op.push 20], rfl⟩ ⟨0, 1⟩).1 (Or.inr hd)
  have h2 := (C1_amended (⟨[20], [⟨0, 2⟩], [0]⟩ : Vector Nat)
    ⟨[Op.push 10, Op.erase_by_id 0, Op.push 20], rfl⟩ ⟨0, 2⟩).2.1
    (by decide) (by decide) (by decide)
  exact ⟨Or.inr hd, h1.1, h1.2, h2⟩

/-- C2 as stated is false when the erased object is itself the last one:
after erasing the only live object, the vacated dense position no longer
exists, so no object — in particular not the "previously-last" one, which
is the erased object itself — occupies it. -/
theorem C2_counterexample :
    Reachable (⟨[10], [⟨0, 0⟩], [0]⟩ : Vector Nat) ∧
    live (⟨[10], [⟨0, 0⟩], [0]⟩ : Vector Nat) 0 ∧
    Vector.erase_by_id (⟨[10], [⟨0, 0⟩], [0]⟩ : Vector Nat) 0 =
      some (⟨[], [⟨0, 1⟩], [0]⟩ : Vector Nat) ∧
    (⟨[10], [⟨0, 0⟩], [0]⟩ : Vector Nat).data[
        (⟨[10], [⟨0, 0⟩], [0]⟩ : Vector Nat).data.length - 1]? = some 10 ∧
    (⟨[], [⟨0, 1⟩], [0]⟩ : Vector Nat).data[
        idxF (⟨[10], [⟨0, 0⟩], [0]⟩ : Vector Nat) 0]? = none :=
  ⟨⟨[Op.push 10], rfl⟩, by decide, by decide, by decide, by decide⟩

/-- C2 (amended): after a successful `erase_by_id eid` on a reachable
state, the live count drops by one; when the erased object was not the
last one, the previously-last object occupies the vacated dense position;
and every handle to a different id that resolved before the erase still
resolves to the same object value. -/
theorem C2_amended {T : Type} (v : Vector T) (hreach : Reachable v) (eid : Nat)
    (w : Vector T) (h : Vector.erase_by_id v eid = some w) :
    w.data.length + 1 = v.data.length ∧
    (idxF v eid < v.data.length - 1 →
      w.data[idxF v eid]? = v.data[v.data.length - 1]?) ∧
    (∀ hdl : Handle, ∀ x : T, hdl.id ≠ eid →
      Vector.get v hdl = some (some x) → Vector.get w hdl = some (some x)) := by
  have hInv := Reachable_inv hreach
  obtain ⟨heid, hlive, hwd, -, -, -, -, -, hdget⟩ := erase_spec hInv h
  refine ⟨hwd, ?_, ?_⟩
  · intro hlt
    rw [hdget, if_pos hlt, if_pos rfl]
  · intro hdl x hne hget
    exact erase_preserves_other_get hInv h hne hget

theorem C2_amended_witness :
    (⟨[3, 2], [⟨2, 0⟩, ⟨1, 0⟩, ⟨0, 1⟩], [2, 1, 0]⟩ : Vector Nat).data.length + 1 =
      (⟨[1, 2, 3], [⟨0, 0⟩, ⟨1, 0⟩, ⟨2, 0⟩], [0, 1, 2]⟩ : Vector Nat).data.length ∧
    Vector.get (⟨[3, 2], [⟨2, 0⟩, ⟨1, 0⟩, ⟨0, 1⟩], [2, 1, 0]⟩ : Vector Nat) ⟨1, 0⟩ =
      some (some 2) ∧
    Vector.get (⟨[3, 2], [⟨2, 0⟩, ⟨1, 0⟩, ⟨0, 1⟩], [2, 1, 0]⟩ : Vector Nat) ⟨2, 0⟩ =
      some (some 3) :=
  ⟨(C2_amended (⟨[1, 2, 3], [⟨0, 0⟩, ⟨1, 0⟩, ⟨2, 0⟩], [0, 1, 2]⟩ : Vector Nat)
      ⟨[Op.push 1, Op.push 2, Op.push 3], rfl⟩ 0
      (⟨[3, 2], [⟨2, 0⟩, ⟨1, 0⟩, ⟨0, 1⟩], [2, 1, 0]⟩ : Vector Nat) (by decide)).1,
   (C2_amended (⟨[1, 2, 3], [⟨0, 0⟩, ⟨1, 0⟩, ⟨2, 0⟩], [0, 1, 2]⟩ : Vector Nat)
      ⟨[Op.push 1, Op.push 2, Op.push 3], rfl⟩ 0
      (⟨[3, 2], [⟨2, 0⟩, ⟨1, 0⟩, ⟨0, 1⟩], [2, 1, 0]⟩ : Vector Nat) (by decide)).2.2
     ⟨1, 0⟩ 2 (by decide) (by decide),
   (C2_amended (⟨[1, 2, 3], [⟨0, 0⟩, ⟨1, 0⟩, ⟨2, 0⟩], [0, 1, 2]⟩ : Vector Nat)
      ⟨[Op.push 1, Op.push 2, Op.push 3], rfl⟩ 0
      (⟨[3, 2], [⟨2, 0⟩, ⟨1, 0⟩, ⟨0, 1⟩], [2, 1, 0]⟩ : Vector Nat) (by decide)).2.2
     ⟨2, 0⟩ 3 (by decide) (by decide)⟩

/-- C3 as stated is false for arbitrary (forged) handles: the handle
`(0, 2)` is stale right after the first push — `get` returns absent — yet
after erasing and re-pushing, the slot's generation catches up with the
handle's and the same handle resolves to the new object, so absence was
not permanent. -/
theorem C3_counterexample :
    runOps (Vector.default : Vector Nat) [Op.push 0] =
      some (⟨[0], [⟨0, 0⟩], [0]⟩ : Vector Nat) ∧
    Vector.get (⟨[0], [⟨0, 0⟩], [0]⟩ : Vector Nat) ⟨0, 2⟩ = some none ∧
    runOps (⟨[0], [⟨0, 0⟩], [0]⟩ : Vector Nat) [Op.erase_by_id 0, Op.push 1] =
      some (⟨[1], [⟨0, 2⟩], [0]⟩ : Vector Nat) ∧
    Vector.get (⟨[1], [⟨0, 2⟩], [0]⟩ : Vector Nat) ⟨0, 2⟩ = some (some 1) :=
  ⟨by decide, by decide, by decide, by decide⟩

/-- C3 (amended): on every reachable state the generation observed
through every id (`get_validity_id`, i.e. `metadata[indices[id]].validity_id`)
is non-decreasing across every successful operation; consequently a handle
whose carried generation does not exceed the slot's current one — which
holds for every issued handle — that is stale (`get` returns absent)
remains stale under every subsequent panic-free operation sequence. -/
theorem C3_amended {T : Type} (v : Vector T) (hreach : Reachable v) :
    (∀ op : Op T, ∀ w, applyOp v op = some w →
      ∀ id a, Vector.get_validity_id v id = some a →
        ∃ b, Vector.get_validity_id w id = some b ∧ a ≤ b) ∧
    (∀ hdl : Handle, hdl.id < v.indices.length →
      hdl.validity_id ≤ valF v (idxF v hdl.id) →
      Vector.get v hdl = some none →
      ∀ ops w, runOps v ops = some w → Vector.get w hdl = some none) := by
  have hInv := Reachable_inv hreach
  refine ⟨?_, ?_⟩
  · intro op w hstep id a ha
    obtain ⟨hid, hav⟩ := get_validity_id_inv ha
    obtain ⟨hidw, hmono, -⟩ := step_obs hInv hstep hid
    refine ⟨valF w (idxF w id),
      get_validity_id_eq (Inv_applyOp hInv hstep) hidw, ?_⟩
    rw [hav]
    exact hmono
  · intro hdl hid hle hstale ops w hrun
    exact stale_forever hInv hid hle hstale hrun

theorem C3_amended_witness :
    (∃ b, Vector.get_validity_id (⟨[], [⟨0, 1⟩], [0]⟩ : Vector Nat) 0 = some b ∧
      0 ≤ b) ∧
    Vector.get (⟨[5], [⟨0, 2⟩], [0]⟩ : Vector Nat) ⟨0, 0⟩ = some none :=
  ⟨(C3_amended (⟨[0], [⟨0, 0⟩], [0]⟩ : Vector Nat) ⟨[Op.push 0], rfl⟩).1
     (Op.erase_by_id 0) (⟨[], [⟨0, 1⟩], [0]⟩ : Vector Nat) (by decide) 0 0 (by decide),
   (C3_amended (⟨[], [⟨0, 1⟩], [0]⟩ : Vector Nat)
      ⟨[Op.push 0, Op.erase_by_id 0], rfl⟩).2
     ⟨0, 0⟩ (by decide) (by decide) (by decide) [Op.push 5]
     (⟨[5], [⟨0, 2⟩], [0]⟩ : Vector Nat) (by decide)⟩

/-- C6: on every reachable state, `clear` empties dense storage (`len` is
0 and `is_empty` is true), increments every metadata entry's generation
counter by exactly one, and every handle issued at any earlier point of
the operation sequence fails to resolve afterwards: `get` returns
nothing. -/
theorem C6_clear {T : Type} (v0 : Vector T) (hreach : Reachable v0)
    (hdl : Handle) (hiss : IssuedBy v0 hdl)
    (ops : List (Op T)) (v : Vector T) (hrun : runOps v0 ops = some v) :
    (Vector.clear v).data = [] ∧
    Vector.len (Vector.clear v) = 0 ∧
    Vector.is_empty (Vector.clear v) = true ∧
    (Vector.clear v).metadata.length = v.metadata.length ∧
    (∀ q, q < v.metadata.length →
      valF (Vector.clear v) q = valF v q + 1 ∧
      revF (Vector.clear v) q = revF v q) ∧
    Vector.get (Vector.clear v) hdl = some none := by
  have hInv0 := Reachable_inv hreach
  have hInv := runOps_inv hInv0 hrun
  have hg := GoodHandle_run hInv0 hrun (GoodHandle_of_issued hInv0 hiss)
  obtain ⟨hid, hle, -⟩ := hg
  refine ⟨rfl, rfl, rfl, clear_metadata_length v, ?_, ?_⟩
  · intro q hq
    exact ⟨clear_valF v hq, clear_revF v q⟩
  · have hInvc := Inv_clear hInv
    have hidc : hdl.id < (Vector.clear v).indices.length := hid
    apply get_mismatch hInvc hidc
    rw [clear_idxF, clear_valF v (hInv.idx_lt hid)]
    omega

theorem C6_clear_witness :
    (Vector.clear (⟨[1], [⟨0, 0⟩], [0]⟩ : Vector Nat)).data = [] ∧
    Vector.len (Vector.clear (⟨[1], [⟨0, 0⟩], [0]⟩ : Vector Nat)) = 0 ∧
    Vector.is_empty (Vector.clear (⟨[1], [⟨0, 0⟩], [0]⟩ : Vector Nat)) = true ∧
    (Vector.clear (⟨[1], [⟨0, 0⟩], [0]⟩ : Vector Nat)).metadata.length =
      (⟨[1], [⟨0, 0⟩], [0]⟩ : Vector Nat).metadata.length ∧
    (∀ q, q < (⟨[1], [⟨0, 0⟩], [0]⟩ : Vector Nat).metadata.length →
      valF (Vector.clear (⟨[1], [⟨0, 0⟩], [0]⟩ : Vector Nat)) q =
          valF (⟨[1], [⟨0, 0⟩], [0]⟩ : Vector Nat) q + 1 ∧
        revF (Vector.clear (⟨[1], [⟨0, 0⟩], [0]⟩ : Vector Nat)) q =
          revF (⟨[1], [⟨0, 0⟩], [0]⟩ : Vector Nat) q) ∧
    Vector.get (Vector.clear (⟨[1], [⟨0, 0⟩], [0]⟩ : Vector Nat)) ⟨0, 0⟩ =
      some none :=
  C6_clear (⟨[1], [⟨0, 0⟩], [0]⟩ : Vector Nat) ⟨[Op.push 1], rfl⟩ ⟨0, 0⟩
    (Or.inl ⟨0, by decide⟩) [] (⟨[1], [⟨0, 0⟩], [0]⟩ : Vector Nat) rfl

/-- C7 as stated is false: `is_valid` is not a total boolean form of the
check `get` performs — on the reachable empty slot map, `get` of the pair
`(0, 0)` returns nothing while `is_valid 0 0` panics (unchecked
`indices[0]` access) instead of returning `false`; and on a freed slot,
`is_valid` returns `true` while `get` panics rather than returning a
reference. -/
theorem C7_counterexample :
    Reachable (Vector.default : Vector Nat) ∧
    Vector.get (Vector.default : Vector Nat) ⟨0, 0⟩ = some none ∧
    Vector.is_valid (Vector.default : Vector Nat) 0 0 = none ∧
    Reachable (⟨[], [⟨0, 1⟩], [0]⟩ : Vector Nat) ∧
    Vector.is_valid (⟨[], [⟨0, 1⟩], [0]⟩ : Vector Nat) 0 1 = some true ∧
    Vector.get (⟨[], [⟨0, 1⟩], [0]⟩ : Vector Nat) ⟨0, 1⟩ = none :=
  ⟨⟨[], rfl⟩, by decide, by decide,
   ⟨[Op.push 0, Op.erase_by_id 0], rfl⟩, by decide, by decide⟩

/-- C7 (amended): on every reachable state, for an id in range of
`indices`, `is_valid id vid` returns a boolean that is `false` exactly
when `get` on the handle `(id, vid)` returns nothing and — when the id is
live — `true` exactly when `get` returns a reference; for an id out of
range, `is_valid` panics while `get` returns nothing. -/
theorem C7_amended {T : Type} (v : Vector T) (hreach : Reachable v)
    (id vid : Nat) :
    (id < v.indices.length →
      ∃ b, Vector.is_valid v id vid = some b ∧
        ((b = false) ↔ Vector.get v ⟨id, vid⟩ = some none) ∧
        (idxF v id < v.data.length →
          ((b = true) ↔ ∃ x, Vector.get v ⟨id, vid⟩ = some (some x)))) ∧
    (v.indices.length ≤ id →
      Vector.is_valid v id vid = none ∧ Vector.get v ⟨id, vid⟩ = some none) := by
  have hInv := Reachable_inv hreach
  refine ⟨?_, ?_⟩
  · intro hid
    refine ⟨vid == valF v (idxF v id), is_valid_eq hInv hid vid, ?_, ?_⟩
    · by_cases heq : vid = valF v (idxF v id)
      · have hbt : (vid == valF v (idxF v id)) = true := by
          simp [heq]
        constructor
        · intro hb
          rw [hbt] at hb
          cases hb
        · intro hg
          exfalso
          by_cases hlv : idxF v id < v.data.length
          · obtain ⟨x, -, hx⟩ := get_pair_live hInv hid heq hlv
            rw [hg] at hx
            simp at hx
          · have hfr := get_pair_freed hInv hid heq (by omega)
            rw [hg] at hfr
            cases hfr
      · have hbf : (vid == valF v (idxF v id)) = false := by
          simp [heq]
        exact ⟨fun hb => get_pair_mismatch hInv hid heq,
          fun hg => hbf⟩
    · intro hlv
      constructor
      · intro hb
        have heq : vid = valF v (idxF v id) := by
          simpa using hb
        obtain ⟨x, -, hx⟩ := get_pair_live hInv hid heq hlv
        exact ⟨x, hx⟩
      · rintro ⟨x, hx⟩
        by_cases heq : vid = valF v (idxF v id)
        · simp [heq]
        · rw [get_pair_mismatch hInv hid heq] at hx
          simp at hx
  · intro hout
    constructor
    · unfold Vector.is_valid
      rw [List.getElem?_eq_none_iff.mpr hout]
      rfl
    · exact get_out_of_range hout

theorem C7_amended_witness :
    ∃ b, Vector.is_valid (⟨[1], [⟨0, 0⟩], [0]⟩ : Vector Nat) 0 0 = some b ∧
      ((b = false) ↔
        Vector.get (⟨[1], [⟨0, 0⟩], [0]⟩ : Vector Nat) ⟨0, 0⟩ = some none) ∧
      (idxF (⟨[1], [⟨0, 0⟩], [0]⟩ : Vector Nat) 0 <
          (⟨[1], [⟨0, 0⟩], [0]⟩ : Vector Nat).data.length →
        ((b = true) ↔
          ∃ x, Vector.get (⟨[1], [⟨0, 0⟩], [0]⟩ : Vector Nat) ⟨0, 0⟩ =
            some (some x))) :=
  (C7_amended (⟨[1], [⟨0, 0⟩], [0]⟩ : Vector Nat) ⟨[Op.push 1], rfl⟩ 0 0).1
    (by decide)

/-- C10: every handle issued by `create_handle` or
`create_handle_from_data` at any earlier point of a panic-free operation
sequence keeps `get` and `get_mut` total: they complete without a panic
and return either nothing or a reference to an object inside live dense
storage (no such guarantee is made for arbitrary forged pairs). -/
theorem C10_issued_total {T : Type} (v0 : Vector T) (hreach : Reachable v0)
    (hdl : Handle) (hiss : IssuedBy v0 hdl)
    (ops : List (Op T)) (v : Vector T) (hrun : runOps v0 ops = some v) :
    (∃ r, Vector.get v hdl = some r) ∧
    (∃ r, Vector.get_mut v hdl = some r) ∧
    (Vector.get v hdl = some none ∨
      ∃ x, idxF v hdl.id < v.data.length ∧ v.data[idxF v hdl.id]? = some x ∧
        Vector.get v hdl = some (some x) ∧
        Vector.get_mut v hdl = some (some x)) := by
  have hInv0 := Reachable_inv hreach
  have hInv := runOps_inv hInv0 hrun
  have hg := GoodHandle_run hInv0 hrun (GoodHandle_of_issued hInv0 hiss)
  rcases get_total_of_GoodHandle hInv hg with hnone | ⟨x, hx, hlv, hget⟩
  · rw [get_mut_eq_get]
    exact ⟨⟨none, hnone⟩, ⟨none, hnone⟩, Or.inl hnone⟩
  · rw [get_mut_eq_get]
    exact ⟨⟨some x, hget⟩, ⟨some x, hget⟩, Or.inr ⟨x, hlv, hx, hget, hget⟩⟩

theorem C10_issued_total_witness :
    (∃ r, Vector.get (⟨[5], [⟨0, 2⟩], [0]⟩ : Vector Nat) ⟨0, 0⟩ = some r) ∧
    (∃ r, Vector.get_mut (⟨[5], [⟨0, 2⟩], [0]⟩ : Vector Nat) ⟨0, 0⟩ = some r) ∧
    (Vector.get (⟨[5], [⟨0, 2⟩], [0]⟩ : Vector Nat) ⟨0, 0⟩ = some none ∨
      ∃ x, idxF (⟨[5], [⟨0, 2⟩], [0]⟩ : Vector Nat) (⟨0, 0⟩ : Handle).id <
          (⟨[5], [⟨0, 2⟩], [0]⟩ : Vector Nat).data.length ∧
        (⟨[5], [⟨0, 2⟩], [0]⟩ : Vector Nat).data[
          idxF (⟨[5], [⟨0, 2⟩], [0]⟩ : Vector Nat) (⟨0, 0⟩ : Handle).id]? = some x ∧
        Vector.get (⟨[5], [⟨0, 2⟩], [0]⟩ : Vector Nat) ⟨0, 0⟩ = some (some x) ∧
        Vector.get_mut (⟨[5], [⟨0, 2⟩], [0]⟩ : Vector Nat) ⟨0, 0⟩ = some (some x)) :=
  C10_issued_total (⟨[1], [⟨0, 0⟩], [0]⟩ : Vector Nat) ⟨[Op.push 1], rfl⟩ ⟨0, 0⟩
    (Or.inl ⟨0, by decide⟩) [Op.erase_by_id 0, Op.push 5]
    (⟨[5], [⟨0, 2⟩], [0]⟩ : Vector Nat) (by decide)

end StableIndexVector
